import Mathlib

/-!
# Verification of the ENIT environmental-monitoring core

A shallow embedding of the two source variants of this repository:

* `src/app.py` — Flask request endpoint `/api/sensors` (`handle_sensor_data`)
  feeding a shared `latest_data` dict guarded by `data_lock`, read by the Dash
  callback `update_metrics`, which also derives threshold alerts.
* `src/vs/app.py` — MQTT variant: `on_message` decodes a JSON payload and
  performs the same full-replace update on a six-metric reading.

The embedding has two layers:

1. A sequential functional layer: Python values (`PyVal`), the `float()` /
   `int()` conversions, payload lookup, `handle_sensor_data`, `on_message`,
   and the alert derivation of `update_metrics`.  Python floats are modelled
   as exact rationals; `datetime.now()` is modelled as an externally supplied
   logical timestamp.  Concrete rationals are written with `mkRat` so that
   witnesses evaluate by `decide`.
2. A small-step concurrency layer: the statements of `handle_sensor_data`
   lines 36–49 and `update_metrics` lines 138–142 are broken into micro
   operations (lock acquire/release, per-field dict writes, per-field reads,
   payload decoding and value conversions), with an interleaving semantics in
   which only `acquire` blocks.  Atomicity of updates is proved, not assumed:
   a writer performs five separate field writes.
-/

/-! ## Python values and conversions -/

/-- A JSON-decoded Python value as it can appear in an inbound payload:
an int, a float (modelled exactly as a rational), a string, a bool or None. -/
inductive PyVal where
  | vint (n : ℤ)
  | vfloat (q : ℚ)
  | vstr (s : String)
  | vbool (b : Bool)
  | vnull
deriving DecidableEq

/-- A decoded JSON object: association list from keys to values, as produced
by `request.json` / `json.loads`. -/
abbrev Payload := List (String × PyVal)

/-- Python dict lookup `p[k]` restricted to presence: `k in p`. -/
def lookupVal (p : Payload) (k : String) : Option PyVal :=
  (p.find? (fun kv => kv.1 == k)).map (fun kv => kv.2)

/-- Numeric value of a list of decimal digit characters. -/
def digitsVal (l : List Char) : ℕ :=
  l.foldl (fun a c => 10 * a + (c.toNat - 48)) 0

/-- `int(s)` for a trimmed, unsigned string: all decimal digits, nonempty.
Python's `int()` rejects any fractional part, which is the behaviour the
claims exercise; exotic forms (underscores, bases) are outside the payloads
this repository receives. -/
def parseNatDigits (cs : List Char) : Option ℕ :=
  if cs ≠ [] ∧ cs.all Char.isDigit then some (digitsVal cs) else none

/-- Unsigned decimal float literal: `digits`, `digits.digits`, `digits.` or
`.digits` (exponent forms are not used by this repository's payloads).
The value is built with `mkRat` over natural-number arithmetic. -/
def parseUnsignedFloat (cs : List Char) : Option ℚ :=
  let ip := cs.takeWhile (fun c => c ≠ '.')
  let rest := cs.dropWhile (fun c => c ≠ '.')
  match rest with
  | [] =>
      if cs ≠ [] ∧ cs.all Char.isDigit then some (mkRat (digitsVal cs) 1) else none
  | _ :: frac =>
      if (ip ≠ [] ∨ frac ≠ []) ∧ ip.all Char.isDigit ∧ frac.all Char.isDigit then
        some (mkRat (digitsVal ip * 10 ^ frac.length + digitsVal frac) (10 ^ frac.length))
      else none

/-- Optional leading sign, shared by `int()` and `float()` string parsing. -/
def parseSign {α : Type} (neg : α → α) (f : List Char → Option α) :
    List Char → Option α
  | '+' :: rest => f rest
  | '-' :: rest => (f rest).map neg
  | cs => f cs

/-- Strip leading and trailing whitespace, as `int()`/`float()` do before
parsing a string argument. -/
def trimChars (cs : List Char) : List Char :=
  ((cs.dropWhile Char.isWhitespace).reverse.dropWhile Char.isWhitespace).reverse

/-- Python `float(x)` on a payload value.  Strings are stripped and parsed as
decimal literals; `None` is a `TypeError`; bools convert to 0/1. -/
def pyFloat : PyVal → Except String ℚ
  | .vint n => .ok (n : ℚ)
  | .vfloat q => .ok q
  | .vbool b => .ok (if b then 1 else 0)
  | .vnull => .error "float() argument must be a string or a number, not NoneType"
  | .vstr s =>
      match parseSign Neg.neg parseUnsignedFloat (trimChars s.toList) with
      | some q => .ok q
      | none => .error ("could not convert string to float: " ++ s)

/-- Truncation of a rational toward zero, the behaviour of Python `int()`
applied to a float (`Int.tdiv` is T-division). -/
def ratTrunc (q : ℚ) : ℤ := q.num.tdiv q.den

/-- Python `int(x)` on a payload value.  A float is truncated toward zero; a
string must be an integer literal (a fractional part is a `ValueError`). -/
def pyInt : PyVal → Except String ℤ
  | .vint n => .ok n
  | .vfloat q => .ok (ratTrunc q)
  | .vbool b => .ok (if b then 1 else 0)
  | .vnull => .error "int() argument must be a string, a bytes-like object or a number, not NoneType"
  | .vstr s =>
      match parseSign Neg.neg (fun cs => (parseNatDigits cs).map (fun n => (n : ℤ))) (trimChars s.toList) with
      | some n => .ok n
      | none => .error ("invalid literal for int() with base 10: " ++ s)

/-- Python subscript `p[k]`: `KeyError` when absent. -/
def getItem (p : Payload) (k : String) : Except String PyVal :=
  match lookupVal p k with
  | some v => .ok v
  | none => .error ("KeyError: " ++ k)

/-- Look up key `k` and convert with `f` — one step of the dict-display
evaluation inside `latest_data.update(...)`. -/
def convStep {α : Type} (p : Payload) (k : String) (f : PyVal → Except String α) :
    Except String α :=
  match lookupVal p k with
  | some v => f v
  | none => .error ("KeyError: " ++ k)

/-! ## Request-path ingestion, `src/app.py` -/

namespace App

/-- The live reading of `src/app.py`: `latest_data` at lines 8–14.
`temperature`/`humidity` hold Python floats, `light`/`co2` Python ints; the
timestamp is a logical clock value. -/
structure Reading where
  temperature : ℚ
  humidity : ℚ
  light : ℤ
  co2 : ℤ
  timestamp : ℕ
deriving DecidableEq

/-- Startup defaults of `latest_data` (lines 8–14); the initial timestamp is
modelled as logical time 0. -/
def latest_data : Reading :=
  { temperature := mkRat 49 2, humidity := 65, light := 750, co2 := 450, timestamp := 0 }

/-- `required_keys` at line 37. -/
def required_keys : List String := ["temperature", "humidity", "light", "co2"]

/-- Response body: `jsonify({"status": "success"})` or `jsonify({"error": msg})`. -/
inductive Body where
  | success
  | error (msg : String)
deriving DecidableEq

/-- An HTTP response: status code and JSON body. -/
structure Response where
  status : ℕ
  body : Body
deriving DecidableEq

/-- The dict display at lines 43–49: each present value converted to its
declared kind, left to right (`float`, `float`, `int`, `int`), first failure
propagating as the exception caught at line 53.  On success the new reading
carries the supplied logical time (`datetime.now()`). -/
def convertPayload (p : Payload) (now : ℕ) : Except String Reading :=
  match convStep p "temperature" pyFloat with
  | .error e => .error e
  | .ok tv =>
    match convStep p "humidity" pyFloat with
    | .error e => .error e
    | .ok hv =>
      match convStep p "light" pyInt with
      | .error e => .error e
      | .ok lv =>
        match convStep p "co2" pyInt with
        | .error e => .error e
        | .ok cv => .ok { temperature := tv, humidity := hv, light := lv, co2 := cv, timestamp := now }

/-- `handle_sensor_data` (lines 33–54) on an already-decoded JSON payload.
Returns the HTTP response together with the single `latest_data.update`
mutation performed, if any (`none` on every failure path: the missing-key
check at lines 39–40 and the conversion failure caught at lines 53–54 both
return before `update` runs). -/
def handle_sensor_data (p : Payload) (now : ℕ) : Response × Option Reading :=
  if (required_keys.all fun k => (lookupVal p k).isSome) = false then
    ({ status := 400, body := .error "Incomplete data" }, none)
  else
    match convertPayload p now with
    | .error e => ({ status := 500, body := .error e }, none)
    | .ok r => ({ status := 200, body := .success }, some r)

/-- The endpoint acting on the store: the mutation, when present, replaces the
live reading wholesale (every key of `latest_data` is overwritten). -/
def ingestState (s : Reading) (p : Payload) (now : ℕ) : Response × Reading :=
  match handle_sensor_data p now with
  | (resp, some r) => (resp, r)
  | (resp, none) => (resp, s)

/-- The copy-out performed by `update_metrics` at lines 139–142: the four
metric values of a snapshot (the timestamp is not read). -/
def readSnapshot (s : Reading) : ℚ × ℚ × ℤ × ℤ :=
  (s.temperature, s.humidity, s.light, s.co2)

/-- `THRESHOLDS['temperature']` (line 25). -/
def THRESHOLDS_temperature : ℚ × ℚ := (15, 30)

/-- `THRESHOLDS['humidity']` (line 26). -/
def THRESHOLDS_humidity : ℚ × ℚ := (30, 70)

/-- `THRESHOLDS['light']` (line 27); compared against a Python int. -/
def THRESHOLDS_light : ℤ × ℤ := (300, 1000)

/-- `THRESHOLDS['co2']` (line 28). -/
def THRESHOLDS_co2 : ℤ × ℤ := (300, 800)

/-- The alert derivation of `update_metrics` (lines 144–155): one conditional
append per metric, in source order.  Alerts are identified by their metric
name; the human-readable message text around the name and value is
presentation formatting and carries no further logic. -/
def alertsOf (temp humidity : ℚ) (light co2 : ℤ) : List String :=
  (if ¬ (THRESHOLDS_temperature.1 ≤ temp ∧ temp ≤ THRESHOLDS_temperature.2) then ["temperature"] else []) ++
  (if ¬ (THRESHOLDS_humidity.1 ≤ humidity ∧ humidity ≤ THRESHOLDS_humidity.2) then ["humidity"] else []) ++
  (if ¬ (THRESHOLDS_light.1 ≤ light ∧ light ≤ THRESHOLDS_light.2) then ["light"] else []) ++
  (if ¬ (THRESHOLDS_co2.1 ≤ co2 ∧ co2 ≤ THRESHOLDS_co2.2) then ["co2"] else [])

end App

/-! ## Subscription-path ingestion, `src/vs/app.py` -/

namespace VS

/-- The live reading of `src/vs/app.py`: `latest_data` at lines 8–16. -/
structure Reading where
  temperature : ℚ
  humidity : ℚ
  luminosity : ℤ
  iaq : ℤ
  tvoc : ℤ
  eco2 : ℤ
  timestamp : ℕ
deriving DecidableEq

/-- Startup defaults of `latest_data` (lines 8–16). -/
def latest_data : Reading :=
  { temperature := mkRat 49 2, humidity := 65, luminosity := 750, iaq := 150,
    tvoc := 100, eco2 := 400, timestamp := 0 }

/-- The dict display at lines 33–41: conversions in source order
(`float`, `float`, `int`, `int`, `int`, `int`), first failure propagating as
the exception caught at line 43.  A missing key is a `KeyError` at the same
point. -/
def convertPayload (p : Payload) : Except String (ℚ × ℚ × ℤ × ℤ × ℤ × ℤ) :=
  match convStep p "temperature" pyFloat with
  | .error e => .error e
  | .ok tv =>
    match convStep p "humidity" pyFloat with
    | .error e => .error e
    | .ok hv =>
      match convStep p "luminosity" pyInt with
      | .error e => .error e
      | .ok lum =>
        match convStep p "iaq" pyInt with
        | .error e => .error e
        | .ok ia =>
          match convStep p "tvoc" pyInt with
          | .error e => .error e
          | .ok tr =>
            match convStep p "eco2" pyInt with
            | .error e => .error e
            | .ok ec => .ok (tv, hv, lum, ia, tr, ec)

/-- `on_message` (lines 28–44) acting on the store.  `decoded` is the result
of `json.loads(msg.payload.decode())`: `none` models a decode failure (or a
non-object payload).  Every failure — decode, missing key, conversion — hits
the `except` at line 43, which logs and returns, leaving the store untouched.
On success the store is replaced wholesale with the converted values and the
current logical time. -/
def on_message (s : Reading) (decoded : Option Payload) (now : ℕ) : Reading :=
  match decoded with
  | none => s
  | some p =>
    match convertPayload p with
    | .error _ => s
    | .ok (tv, hv, lum, ia, tr, ec) =>
      { temperature := tv, humidity := hv, luminosity := lum, iaq := ia,
        tvoc := tr, eco2 := ec, timestamp := now }

/-- The subscription loop: `on_message` fires once per delivered message and
an exception in one callback does not stop the client (`paho` catches it), so
the stream folds over the store. -/
def processMessages (s : Reading) : List (Option Payload × ℕ) → Reading
  | [] => s
  | (m, now) :: rest => processMessages (on_message s m now) rest

/-- `THRESHOLDS` of the MQTT variant (lines 57–64). -/
def THRESHOLDS_temperature : ℚ × ℚ := (15, 30)

/-- `THRESHOLDS['humidity']` (line 59). -/
def THRESHOLDS_humidity : ℚ × ℚ := (30, 70)

/-- `THRESHOLDS['luminosity']` (line 60). -/
def THRESHOLDS_luminosity : ℤ × ℤ := (300, 1000)

/-- `THRESHOLDS['eco2']` (line 61). -/
def THRESHOLDS_eco2 : ℤ × ℤ := (300, 800)

/-- `THRESHOLDS['tvoc']` (line 62). -/
def THRESHOLDS_tvoc : ℤ × ℤ := (0, 300)

/-- `THRESHOLDS['iaq']` (line 63). -/
def THRESHOLDS_iaq : ℤ × ℤ := (0, 300)

/-- The alert derivation of `update_metrics` (lines 183–198): conditional
appends in source order — temperature, humidity, luminosity, iaq, tvoc, eco2. -/
def alertsOf (temp humidity : ℚ) (luminosity iaq tvoc eco2 : ℤ) : List String :=
  (if ¬ (THRESHOLDS_temperature.1 ≤ temp ∧ temp ≤ THRESHOLDS_temperature.2) then ["temperature"] else []) ++
  (if ¬ (THRESHOLDS_humidity.1 ≤ humidity ∧ humidity ≤ THRESHOLDS_humidity.2) then ["humidity"] else []) ++
  (if ¬ (THRESHOLDS_luminosity.1 ≤ luminosity ∧ luminosity ≤ THRESHOLDS_luminosity.2) then ["luminosity"] else []) ++
  (if ¬ (THRESHOLDS_iaq.1 ≤ iaq ∧ iaq ≤ THRESHOLDS_iaq.2) then ["iaq"] else []) ++
  (if ¬ (THRESHOLDS_tvoc.1 ≤ tvoc ∧ tvoc ≤ THRESHOLDS_tvoc.2) then ["tvoc"] else []) ++
  (if ¬ (THRESHOLDS_eco2.1 ≤ eco2 ∧ eco2 ≤ THRESHOLDS_eco2.2) then ["eco2"] else [])

end VS

/-! ## Helper lemmas -/

/-- Python's `not (lo <= v <= hi)` is exactly "strictly below `lo` or strictly
above `hi`". -/
theorem not_between_iff {α : Type} [LinearOrder α] (a b x : α) :
    (¬ (a ≤ x ∧ x ≤ b)) ↔ (x < a ∨ b < x) := by
  rw [not_and_or, not_le, not_le]

/-- Characterization of `ratTrunc` on nonnegative rationals: it is the floor. -/
theorem ratTrunc_of_nonneg (q : ℚ) (h : 0 ≤ q) : ratTrunc q = ⌊q⌋ := by
  rw [ratTrunc, Rat.floor_def]
  exact Int.tdiv_eq_ediv (Rat.num_nonneg.mpr h) (Int.ofNat_nonneg _)

/-- Characterization of `ratTrunc` on negative rationals: it is the ceiling,
so truncation always rounds toward zero. -/
theorem ratTrunc_of_neg (q : ℚ) (h : q < 0) : ratTrunc q = ⌈q⌉ := by
  have hnum : 0 ≤ (-q).num := Rat.num_nonneg.mpr (by linarith)
  rw [Rat.neg_num] at hnum
  have hceil : ⌈q⌉ = -⌊-q⌋ := by rw [Int.floor_neg, neg_neg]
  rw [ratTrunc, hceil, Rat.floor_def, Rat.neg_num, Rat.neg_den]
  rw [show q.num.tdiv q.den = -((-q.num).tdiv q.den) by rw [Int.neg_tdiv, neg_neg]]
  rw [Int.tdiv_eq_ediv hnum (Int.ofNat_nonneg _)]

/-- Membership in a conditional one-element prefix of an alert list. -/
theorem mem_ite_append {c : Prop} [Decidable c] (a x : String) (l : List String) :
    (a ∈ (if c then [x] else []) ++ l) ↔ ((c ∧ a = x) ∨ a ∈ l) := by
  split_ifs <;> simp_all

/-- Membership in a conditional one-element alert list. -/
theorem mem_ite_single {c : Prop} [Decidable c] (a x : String) :
    (a ∈ (if c then [x] else [])) ↔ (c ∧ a = x) := by
  split_ifs <;> simp_all

/-- A conditional one-element prefix preserves sublist-of-declaration-order. -/
theorem sublist_ite_append {c : Prop} [Decidable c] (x : String) {l l' : List String}
    (h : l.Sublist l') : ((if c then [x] else []) ++ l).Sublist (x :: l') := by
  split_ifs
  · exact h.cons₂ x
  · exact h.cons x

/-- A conditional one-element alert list is a sublist of its singleton. -/
theorem sublist_ite_single {c : Prop} [Decidable c] (x : String) :
    ((if c then [x] else []) : List String).Sublist [x] := by
  split_ifs <;> simp

/-- A conditional one-element alert list is empty iff its condition fails. -/
theorem ite_single_eq_nil {c : Prop} [Decidable c] (x : String) :
    (((if c then [x] else []) : List String) = []) ↔ ¬ c := by
  split_ifs <;> simp_all

/-! ## C2 — threshold evaluation -/

/-- C2.  The Threshold Evaluator of `update_metrics` (both variants) alerts a
metric iff its value is strictly below the lower or strictly above the upper
threshold; boundary values produce no alert and one unit past a bound
produces exactly one alert for that metric; the alert list follows the
declaration order of the metrics and is empty exactly when every metric is in
range. -/
theorem update_metrics_alert_iff (temp humidity : ℚ) (light co2 : ℤ)
    (tempV humV : ℚ) (lum ia tvo ec : ℤ) :
    ("temperature" ∈ App.alertsOf temp humidity light co2 ↔ (temp < 15 ∨ 30 < temp)) ∧
    ("humidity" ∈ App.alertsOf temp humidity light co2 ↔ (humidity < 30 ∨ 70 < humidity)) ∧
    ("light" ∈ App.alertsOf temp humidity light co2 ↔ (light < 300 ∨ 1000 < light)) ∧
    ("co2" ∈ App.alertsOf temp humidity light co2 ↔ (co2 < 300 ∨ 800 < co2)) ∧
    (App.alertsOf temp humidity light co2).Sublist ["temperature", "humidity", "light", "co2"] ∧
    (App.alertsOf temp humidity light co2 = [] ↔
      ((15 ≤ temp ∧ temp ≤ 30) ∧ (30 ≤ humidity ∧ humidity ≤ 70) ∧
       (300 ≤ light ∧ light ≤ 1000) ∧ (300 ≤ co2 ∧ co2 ≤ 800))) ∧
    App.alertsOf 15 30 300 300 = [] ∧
    App.alertsOf 30 70 1000 800 = [] ∧
    App.alertsOf 14 65 750 450 = ["temperature"] ∧
    App.alertsOf 31 65 750 450 = ["temperature"] ∧
    App.alertsOf (mkRat 49 2) 29 750 450 = ["humidity"] ∧
    App.alertsOf (mkRat 49 2) 71 750 450 = ["humidity"] ∧
    App.alertsOf (mkRat 49 2) 65 299 450 = ["light"] ∧
    App.alertsOf (mkRat 49 2) 65 1001 450 = ["light"] ∧
    App.alertsOf (mkRat 49 2) 65 750 299 = ["co2"] ∧
    App.alertsOf (mkRat 49 2) 65 750 801 = ["co2"] ∧
    ("temperature" ∈ VS.alertsOf tempV humV lum ia tvo ec ↔ (tempV < 15 ∨ 30 < tempV)) ∧
    ("humidity" ∈ VS.alertsOf tempV humV lum ia tvo ec ↔ (humV < 30 ∨ 70 < humV)) ∧
    ("luminosity" ∈ VS.alertsOf tempV humV lum ia tvo ec ↔ (lum < 300 ∨ 1000 < lum)) ∧
    ("iaq" ∈ VS.alertsOf tempV humV lum ia tvo ec ↔ (ia < 0 ∨ 300 < ia)) ∧
    ("tvoc" ∈ VS.alertsOf tempV humV lum ia tvo ec ↔ (tvo < 0 ∨ 300 < tvo)) ∧
    ("eco2" ∈ VS.alertsOf tempV humV lum ia tvo ec ↔ (ec < 300 ∨ 800 < ec)) ∧
    (VS.alertsOf tempV humV lum ia tvo ec).Sublist
      ["temperature", "humidity", "luminosity", "iaq", "tvoc", "eco2"] ∧
    (VS.alertsOf tempV humV lum ia tvo ec = [] ↔
      ((15 ≤ tempV ∧ tempV ≤ 30) ∧ (30 ≤ humV ∧ humV ≤ 70) ∧
       (300 ≤ lum ∧ lum ≤ 1000) ∧ (0 ≤ ia ∧ ia ≤ 300) ∧
       (0 ≤ tvo ∧ tvo ≤ 300) ∧ (300 ≤ ec ∧ ec ≤ 800))) := by
  refine ⟨?_, ?_, ?_, ?_, ?_, ?_, by decide, by decide, by decide, by decide, by decide,
    by decide, by decide, by decide, by decide, by decide, ?_, ?_, ?_, ?_, ?_, ?_, ?_, ?_⟩
  · unfold App.alertsOf App.THRESHOLDS_temperature App.THRESHOLDS_humidity App.THRESHOLDS_light App.THRESHOLDS_co2
    simp only [List.append_assoc, mem_ite_append, mem_ite_single]
    simp only [String.reduceEq, and_false, false_or, and_true, or_false]
    exact not_between_iff _ _ _
  · unfold App.alertsOf App.THRESHOLDS_temperature App.THRESHOLDS_humidity App.THRESHOLDS_light App.THRESHOLDS_co2
    simp only [List.append_assoc, mem_ite_append, mem_ite_single]
    simp only [String.reduceEq, and_false, false_or, and_true, or_false]
    exact not_between_iff _ _ _
  · unfold App.alertsOf App.THRESHOLDS_temperature App.THRESHOLDS_humidity App.THRESHOLDS_light App.THRESHOLDS_co2
    simp only [List.append_assoc, mem_ite_append, mem_ite_single]
    simp only [String.reduceEq, and_false, false_or, and_true, or_false]
    exact not_between_iff _ _ _
  · unfold App.alertsOf App.THRESHOLDS_temperature App.THRESHOLDS_humidity App.THRESHOLDS_light App.THRESHOLDS_co2
    simp only [List.append_assoc, mem_ite_append, mem_ite_single]
    simp only [String.reduceEq, and_false, false_or, and_true, or_false]
    exact not_between_iff _ _ _
  · unfold App.alertsOf
    simp only [List.append_assoc]
    exact sublist_ite_append _ (sublist_ite_append _ (sublist_ite_append _ (sublist_ite_single _)))
  · unfold App.alertsOf App.THRESHOLDS_temperature App.THRESHOLDS_humidity App.THRESHOLDS_light App.THRESHOLDS_co2
    simp only [List.append_assoc, List.append_eq_nil, ite_single_eq_nil, not_not]
  · unfold VS.alertsOf VS.THRESHOLDS_temperature VS.THRESHOLDS_humidity VS.THRESHOLDS_luminosity VS.THRESHOLDS_iaq VS.THRESHOLDS_tvoc VS.THRESHOLDS_eco2
    simp only [List.append_assoc, mem_ite_append, mem_ite_single]
    simp only [String.reduceEq, and_false, false_or, and_true, or_false]
    exact not_between_iff _ _ _
  · unfold VS.alertsOf VS.THRESHOLDS_temperature VS.THRESHOLDS_humidity VS.THRESHOLDS_luminosity VS.THRESHOLDS_iaq VS.THRESHOLDS_tvoc VS.THRESHOLDS_eco2
    simp only [List.append_assoc, mem_ite_append, mem_ite_single]
    simp only [String.reduceEq, and_false, false_or, and_true, or_false]
    exact not_between_iff _ _ _
  · unfold VS.alertsOf VS.THRESHOLDS_temperature VS.THRESHOLDS_humidity VS.THRESHOLDS_luminosity VS.THRESHOLDS_iaq VS.THRESHOLDS_tvoc VS.THRESHOLDS_eco2
    simp only [List.append_assoc, mem_ite_append, mem_ite_single]
    simp only [String.reduceEq, and_false, false_or, and_true, or_false]
    exact not_between_iff _ _ _
  · unfold VS.alertsOf VS.THRESHOLDS_temperature VS.THRESHOLDS_humidity VS.THRESHOLDS_luminosity VS.THRESHOLDS_iaq VS.THRESHOLDS_tvoc VS.THRESHOLDS_eco2
    simp only [List.append_assoc, mem_ite_append, mem_ite_single]
    simp only [String.reduceEq, and_false, false_or, and_true, or_false]
    exact not_between_iff _ _ _
  · unfold VS.alertsOf VS.THRESHOLDS_temperature VS.THRESHOLDS_humidity VS.THRESHOLDS_luminosity VS.THRESHOLDS_iaq VS.THRESHOLDS_tvoc VS.THRESHOLDS_eco2
    simp only [List.append_assoc, mem_ite_append, mem_ite_single]
    simp only [String.reduceEq, and_false, false_or, and_true, or_false]
    exact not_between_iff _ _ _
  · unfold VS.alertsOf VS.THRESHOLDS_temperature VS.THRESHOLDS_humidity VS.THRESHOLDS_luminosity VS.THRESHOLDS_iaq VS.THRESHOLDS_tvoc VS.THRESHOLDS_eco2
    simp only [List.append_assoc, mem_ite_append, mem_ite_single]
    simp only [String.reduceEq, and_false, false_or, and_true, or_false]
    exact not_between_iff _ _ _
  · unfold VS.alertsOf
    simp only [List.append_assoc]
    exact sublist_ite_append _ (sublist_ite_append _ (sublist_ite_append _
      (sublist_ite_append _ (sublist_ite_append _ (sublist_ite_single _)))))
  · unfold VS.alertsOf VS.THRESHOLDS_temperature VS.THRESHOLDS_humidity VS.THRESHOLDS_luminosity VS.THRESHOLDS_iaq VS.THRESHOLDS_tvoc VS.THRESHOLDS_eco2
    simp only [List.append_assoc, List.append_eq_nil, ite_single_eq_nil, not_not]


/-! ## C3 — incomplete payload rejected, store unchanged -/

/-- C3.  If the decoded request payload lacks any required metric key, the
endpoint answers 400 with body `{"error": "Incomplete data"}` and the store
is exactly what it was before the call. -/
theorem ingest_incomplete_rejected (s : App.Reading) (p : Payload) (now : ℕ) (k : String)
    (hk : k ∈ App.required_keys) (hmiss : lookupVal p k = none) :
    App.ingestState s p now = ({ status := 400, body := .error "Incomplete data" }, s) := by
  have hall : (App.required_keys.all fun k => (lookupVal p k).isSome) = false := by
    rw [List.all_eq_false]
    exact ⟨k, hk, by simp [hmiss]⟩
  simp [App.ingestState, App.handle_sensor_data, hall]

/-- The incomplete-payload scenario of the spec: `{temperature: 24.5}`,
humidity (and the rest) missing. -/
def pIncomplete : Payload := [("temperature", .vfloat (mkRat 49 2))]

/-- Witness for C3 at the spec's own scenario. -/
theorem ingest_incomplete_rejected_witness :
    ("humidity" ∈ App.required_keys) ∧ lookupVal pIncomplete "humidity" = none ∧
    App.ingestState App.latest_data pIncomplete 7 =
      ({ status := 400, body := .error "Incomplete data" }, App.latest_data) :=
  ⟨by decide, by decide,
   ingest_incomplete_rejected App.latest_data pIncomplete 7 "humidity" (by decide) (by decide)⟩

/-! ## C4 — conversion failure surfaced as 500, mutation accounting -/

/-- C4.  On a complete payload whose conversion fails, the endpoint answers
500 carrying the conversion failure text and the store is unchanged; across
all inputs, the single `update` mutation happens exactly on the 200 path
(`isSome ↔ status = 200`), and the mutated value is precisely the converted
payload. -/
theorem ingest_conversion_failure :
    (∀ (s : App.Reading) (p : Payload) (now : ℕ) (m : String),
       (App.required_keys.all fun k => (lookupVal p k).isSome) = true →
       App.convertPayload p now = .error m →
       App.ingestState s p now = ({ status := 500, body := .error m }, s)) ∧
    (∀ (p : Payload) (now : ℕ),
       ((App.handle_sensor_data p now).2.isSome = true ↔
        (App.handle_sensor_data p now).1.status = 200)) ∧
    (∀ (p : Payload) (now : ℕ) (r : App.Reading),
       (App.handle_sensor_data p now).2 = some r → App.convertPayload p now = .ok r) := by
  refine ⟨?_, ?_, ?_⟩
  · intro s p now m hall hconv
    simp [App.ingestState, App.handle_sensor_data, hall, hconv]
  · intro p now
    unfold App.handle_sensor_data
    rcases hb : (App.required_keys.all fun k => (lookupVal p k).isSome) with _ | _
    · simp
    · rcases hc : App.convertPayload p now with e | r <;> simp
  · intro p now r
    unfold App.handle_sensor_data
    rcases hb : (App.required_keys.all fun k => (lookupVal p k).isSome) with _ | _
    · simp
    · rcases hc : App.convertPayload p now with e | r' <;> simp

/-- A complete payload whose temperature is the unconvertible string `abc`. -/
def pMalformed : Payload :=
  [("temperature", .vstr "abc"), ("humidity", .vint 65), ("light", .vint 750), ("co2", .vint 450)]

/-- Witness for C4: the malformed payload yields 500 with the underlying
failure text and no mutation. -/
theorem ingest_conversion_failure_witness :
    (App.required_keys.all fun k => (lookupVal pMalformed k).isSome) = true ∧
    App.convertPayload pMalformed 3 = .error "could not convert string to float: abc" ∧
    App.ingestState App.latest_data pMalformed 3 =
      ({ status := 500, body := .error "could not convert string to float: abc" }, App.latest_data) :=
  ⟨by decide, by rfl,
   ingest_conversion_failure.1 App.latest_data pMalformed 3 _ (by decide) (by rfl)⟩

/-! ## C6 — ingest/read round trip -/

/-- C6.  A successful request-path ingest followed by a read yields exactly
the payload's values converted to the schema kinds (floats for temperature
and humidity, ints for light and co2), with the fresh timestamp. -/
theorem ingest_read_roundtrip (s : App.Reading) (p : Payload) (now : ℕ)
    (vt vh vl vc : PyVal) (tv hv : ℚ) (lv cv : ℤ)
    (h1 : lookupVal p "temperature" = some vt) (h2 : pyFloat vt = .ok tv)
    (h3 : lookupVal p "humidity" = some vh) (h4 : pyFloat vh = .ok hv)
    (h5 : lookupVal p "light" = some vl) (h6 : pyInt vl = .ok lv)
    (h7 : lookupVal p "co2" = some vc) (h8 : pyInt vc = .ok cv) :
    App.ingestState s p now =
      ({ status := 200, body := .success },
       { temperature := tv, humidity := hv, light := lv, co2 := cv, timestamp := now }) ∧
    App.readSnapshot (App.ingestState s p now).2 = (tv, hv, lv, cv) := by
  have hall : (App.required_keys.all fun k => (lookupVal p k).isSome) = true := by
    simp [App.required_keys, h1, h3, h5, h7]
  have hconv : App.convertPayload p now =
      .ok { temperature := tv, humidity := hv, light := lv, co2 := cv, timestamp := now } := by
    simp [App.convertPayload, convStep, h1, h2, h3, h4, h5, h6, h7, h8]
  constructor
  · simp [App.ingestState, App.handle_sensor_data, hall, hconv]
  · simp [App.ingestState, App.handle_sensor_data, hall, hconv, App.readSnapshot]

/-- The complete-payload scenario of the spec:
`{temperature: 24.5, humidity: 65, light: "750", co2: 450.0}`. -/
def pComplete : Payload :=
  [("temperature", .vfloat (mkRat 49 2)), ("humidity", .vint 65),
   ("light", .vstr "750"), ("co2", .vfloat 450)]

/-- Witness for C6 at a concrete mixed-representation payload. -/
theorem ingest_read_roundtrip_witness :
    App.ingestState App.latest_data pComplete 9 =
      ({ status := 200, body := .success },
       { temperature := mkRat 49 2, humidity := 65, light := 750, co2 := 450, timestamp := 9 }) ∧
    App.readSnapshot (App.ingestState App.latest_data pComplete 9).2 =
      (mkRat 49 2, 65, 750, 450) := by
  have h := ingest_read_roundtrip App.latest_data pComplete 9
    (.vfloat (mkRat 49 2)) (.vint 65) (.vstr "750") (.vfloat 450)
    (mkRat 49 2) 65 750 450
    (by rfl) (by rfl) (by rfl) (by rfl) (by rfl) (by rfl) (by rfl) (by rfl)
  exact h

/-! ## C10 — integer conversion semantics -/

/-- A complete request payload whose integer-kind `light` arrives as the
fractional number `750.9`. -/
def pFracLight : Payload :=
  [("temperature", .vfloat (mkRat 49 2)), ("humidity", .vint 65),
   ("light", .vfloat (mkRat 7509 10)), ("co2", .vint 450)]

/-- A complete request payload whose `light` arrives as the string `"750.9"`. -/
def pStrFracLight : Payload :=
  [("temperature", .vfloat (mkRat 49 2)), ("humidity", .vint 65),
   ("light", .vstr "750.9"), ("co2", .vint 450)]

/-- A complete subscription payload whose `luminosity` is the string `"750.9"`. -/
def vsStrFrac : Payload :=
  [("temperature", .vfloat (mkRat 49 2)), ("humidity", .vint 65),
   ("luminosity", .vstr "750.9"), ("iaq", .vint 150), ("tvoc", .vint 100),
   ("eco2", .vint 400)]

/-- C10.  Integer-kind metrics go through Python `int()`: a fractional
numeric value is accepted and truncated toward zero (floor for nonnegative,
ceiling for negative), while a numeric string with a fractional part fails —
a 500 on the request path and a dropped message on the subscription path. -/
theorem int_conversion_truncates :
    (∀ q : ℚ, pyInt (.vfloat q) = .ok (ratTrunc q)) ∧
    (∀ q : ℚ, 0 ≤ q → ratTrunc q = ⌊q⌋) ∧
    (∀ q : ℚ, q < 0 → ratTrunc q = ⌈q⌉) ∧
    pyInt (.vfloat (mkRat 7509 10)) = .ok 750 ∧
    pyInt (.vfloat (mkRat (-27) 10)) = .ok (-2) ∧
    pyInt (.vstr "750.9") = .error "invalid literal for int() with base 10: 750.9" ∧
    App.handle_sensor_data pFracLight 1 =
      ({ status := 200, body := .success },
       some { temperature := mkRat 49 2, humidity := 65, light := 750, co2 := 450, timestamp := 1 }) ∧
    (App.handle_sensor_data pStrFracLight 1).1.status = 500 ∧
    (App.handle_sensor_data pStrFracLight 1).2 = none ∧
    (∀ (s : VS.Reading) (now : ℕ), VS.on_message s (some vsStrFrac) now = s) := by
  refine ⟨fun q => rfl, ratTrunc_of_nonneg, ratTrunc_of_neg,
    by rfl, by rfl, by rfl, by rfl, by rfl, by rfl, ?_⟩
  intro s now
  rfl

/-- Witness for C10: truncation toward zero at `5/2` and `-5/2`. -/
theorem int_conversion_truncates_witness :
    (0 ≤ (mkRat 5 2 : ℚ) ∧ ratTrunc (mkRat 5 2) = ⌊(mkRat 5 2 : ℚ)⌋) ∧
    ((mkRat (-5) 2 : ℚ) < 0 ∧ ratTrunc (mkRat (-5) 2) = ⌈(mkRat (-5) 2 : ℚ)⌉) :=
  ⟨⟨by decide, int_conversion_truncates.2.1 _ (by decide)⟩,
   ⟨by decide, int_conversion_truncates.2.2.1 _ (by decide)⟩⟩

/-! ## C5 — malformed subscription messages are dropped, stream continues -/

/-- C5.  A subscription message that fails to decode, or whose payload lacks
a required field or carries an unconvertible value, leaves the store exactly
as it was; the subscription keeps processing, so a later well-formed message
still updates the store with its converted values. -/
theorem on_message_isolation :
    (∀ (s : VS.Reading) (now : ℕ), VS.on_message s none now = s) ∧
    (∀ (s : VS.Reading) (p : Payload) (now : ℕ) (e : String),
       VS.convertPayload p = .error e → VS.on_message s (some p) now = s) ∧
    (∀ (s : VS.Reading) (m : Option Payload) (now : ℕ) (rest : List (Option Payload × ℕ)),
       VS.on_message s m now = s →
       VS.processMessages s ((m, now) :: rest) = VS.processMessages s rest) ∧
    (∀ (s : VS.Reading) (p : Payload) (n1 n2 : ℕ) (tv hv : ℚ) (lum ia tr ec : ℤ),
       VS.convertPayload p = .ok (tv, hv, lum, ia, tr, ec) →
       VS.processMessages s [(none, n1), (some p, n2)] =
         { temperature := tv, humidity := hv, luminosity := lum, iaq := ia,
           tvoc := tr, eco2 := ec, timestamp := n2 }) := by
  refine ⟨fun s now => rfl, ?_, ?_, ?_⟩
  · intro s p now e hconv
    simp [VS.on_message, hconv]
  · intro s m now rest hdrop
    simp [VS.processMessages, hdrop]
  · intro s p n1 n2 tv hv lum ia tr ec hconv
    simp [VS.processMessages, VS.on_message, hconv]

/-- A well-formed subscription payload. -/
def vsGood : Payload :=
  [("temperature", .vfloat (mkRat 51 2)), ("humidity", .vint 60),
   ("luminosity", .vstr "700"), ("iaq", .vint 120), ("tvoc", .vint 90),
   ("eco2", .vint 500)]

/-- Witness for C5: a non-decodable message followed by a good one — the bad
message leaves the defaults in place and the good one lands in full. -/
theorem on_message_isolation_witness :
    VS.convertPayload vsGood = .ok (mkRat 51 2, 60, 700, 120, 90, 500) ∧
    VS.processMessages VS.latest_data [(none, 4), (some vsGood, 5)] =
      { temperature := mkRat 51 2, humidity := 60, luminosity := 700, iaq := 120,
        tvoc := 90, eco2 := 500, timestamp := 5 } :=
  ⟨by rfl,
   on_message_isolation.2.2.2 VS.latest_data vsGood 4 5 (mkRat 51 2) 60 700 120 90 500 (by rfl)⟩

/-! ## Concurrency layer

The statements touching shared state in `src/app.py` are broken into micro
operations executed under an interleaving scheduler.  A request handler
(lines 36–49) decodes the body, acquires `data_lock`, evaluates the dict
display — four value conversions and `datetime.now()` — then writes the five
dict entries one by one and releases; the Dash callback (lines 138–142)
acquires, copies the four metric values out one by one, and releases.  Only
`acquire` can block; field accesses are never blocked by the semantics, so
mutual exclusion of access is a property of the programs, not of the
scheduler. -/

abbrev Tid := ℕ

abbrev FieldName := String

/-- One atomic step of a thread against the shared state. -/
inductive MicroOp where
  | decodeOp
  | acquire
  | convertOp
  | nowOp
  | writeF (f : FieldName) (v : ℚ)
  | readF (f : FieldName)
  | releaseOp
deriving DecidableEq

/-- The five values a request-path update writes into `latest_data`
(already converted; integer metrics are embedded in ℚ). -/
structure UpdateVals where
  temperature : ℚ
  humidity : ℚ
  light : ℚ
  co2 : ℚ
  timestamp : ℚ
deriving DecidableEq

/-- `handle_sensor_data` lines 36–49 as a micro-op program: decode
(`request.json`, before the lock), acquire, the four `float`/`int`
conversions and `datetime.now()` of the dict display (inside the `with`
block), the five dict-entry writes of `latest_data.update`, release. -/
def writerProg (r : UpdateVals) : List MicroOp :=
  [.decodeOp, .acquire, .convertOp, .convertOp, .convertOp, .convertOp, .nowOp,
   .writeF "temperature" r.temperature, .writeF "humidity" r.humidity,
   .writeF "light" r.light, .writeF "co2" r.co2, .writeF "timestamp" r.timestamp,
   .releaseOp]

/-- `update_metrics` lines 138–142 as a micro-op program: acquire, copy out
the four metric values, release (the timestamp is not read). -/
def readerProg : List MicroOp :=
  [.acquire, .readF "temperature", .readF "humidity", .readF "light",
   .readF "co2", .releaseOp]

/-- The seven values a subscription-path update writes (vs variant). -/
structure UpdateValsVS where
  temperature : ℚ
  humidity : ℚ
  luminosity : ℚ
  iaq : ℚ
  tvoc : ℚ
  eco2 : ℚ
  timestamp : ℚ
deriving DecidableEq

/-- `on_message` lines 31–41 of `src/vs/app.py` as a micro-op program:
decode (`json.loads`, before the lock), acquire, six conversions and
`datetime.now()` inside the `with` block, seven dict-entry writes, release. -/
def onMessageProg (r : UpdateValsVS) : List MicroOp :=
  [.decodeOp, .acquire, .convertOp, .convertOp, .convertOp, .convertOp,
   .convertOp, .convertOp, .nowOp,
   .writeF "temperature" r.temperature, .writeF "humidity" r.humidity,
   .writeF "luminosity" r.luminosity, .writeF "iaq" r.iaq,
   .writeF "tvoc" r.tvoc, .writeF "eco2" r.eco2, .writeF "timestamp" r.timestamp,
   .releaseOp]

/-- What a thread is running: one request-path update, or one callback read. -/
inductive Role where
  | writer (r : UpdateVals)
  | reader

/-- The program a role executes. -/
def progOf : Role → List MicroOp
  | .writer r => writerProg r
  | .reader => readerProg

/-- Shared-state configuration: the `data_lock` owner, the `latest_data`
dict, each thread's program counter, and each reader's copied-out values in
copy order. -/
structure Conf where
  lock : Option Tid
  store : FieldName → ℚ
  pc : Tid → ℕ
  obs : Tid → List (FieldName × ℚ)

/-- Which micro-ops can fire: `threading.Lock.acquire` blocks unless the lock
is free (it is not reentrant), exiting the `with` block requires holding it,
and nothing else blocks. -/
def enabledB (c : Conf) (t : Tid) : MicroOp → Bool
  | .acquire => c.lock == none
  | .releaseOp => c.lock == some t
  | _ => true

/-- Effect of one micro-op by thread `t`. -/
def applyOp (c : Conf) (t : Tid) (op : MicroOp) : Conf :=
  let bump : Tid → ℕ := fun u => if u = t then c.pc u + 1 else c.pc u
  match op with
  | .acquire => { c with lock := some t, pc := bump }
  | .releaseOp => { c with lock := none, pc := bump }
  | .writeF f v => { c with store := fun g => if g = f then v else c.store g, pc := bump }
  | .readF f => { c with obs := fun u => if u = t then c.obs u ++ [(f, c.store f)] else c.obs u, pc := bump }
  | _ => { c with pc := bump }

/-- One scheduler step: thread `t` runs its next enabled micro-op. -/
inductive Step (role : Tid → Role) (t : Tid) (c : Conf) : Conf → Prop where
  | mk (op : MicroOp) (hop : (progOf (role t)).get? (c.pc t) = some op)
      (hen : enabledB c t op = true) : Step role t c (applyOp c t op)

/-- Start state: lock free, store at its defaults, all threads at their
program starts, no observations. -/
def initConf (role : Tid → Role) (init : FieldName → ℚ) : Conf :=
  { lock := none, store := init, pc := fun _ => 0, obs := fun _ => [] }

/-- Reachability under any interleaving of the given threads. -/
def Reach (role : Tid → Role) (init : FieldName → ℚ) (c : Conf) : Prop :=
  Relation.ReflTransGen (fun a b => ∃ t, Step role t a b) (initConf role init) c

/-- The dict keys of `latest_data`. -/
def schemaNames : List FieldName := ["temperature", "humidity", "light", "co2", "timestamp"]

/-- Whether a role at program counter `k` is inside its `with data_lock`
block (acquire executed, release not yet). -/
def inCrit : Role → ℕ → Prop
  | .writer _, k => 2 ≤ k ∧ k ≤ 12
  | .reader, k => 1 ≤ k ∧ k ≤ 5

/-- The store after a full-replace update `r` over initial contents `init`. -/
def writtenStore (r : UpdateVals) (init : FieldName → ℚ) : FieldName → ℚ :=
  fun g =>
    if g = "temperature" then r.temperature
    else if g = "humidity" then r.humidity
    else if g = "light" then r.light
    else if g = "co2" then r.co2
    else if g = "timestamp" then r.timestamp
    else init g

/-- A store is consistent when it is the defaults or the full image of one
completed update (program counter 13 = past `release`). -/
def consistentStore (role : Tid → Role) (init : FieldName → ℚ) (c : Conf) : Prop :=
  (∀ g, c.store g = init g) ∨
  ∃ u r, role u = Role.writer r ∧ c.pc u = 13 ∧ ∀ g, c.store g = writtenStore r init g

/-- The four-field copy a completed reader holds of a given store. -/
def snapOf (s : FieldName → ℚ) : List (FieldName × ℚ) :=
  [("temperature", s "temperature"), ("humidity", s "humidity"),
   ("light", s "light"), ("co2", s "co2")]

/-- An observation list is a consistent snapshot: all four fields from the
defaults, or all four from exactly one completed update. -/
def consistentSnap (role : Tid → Role) (init : FieldName → ℚ) (c : Conf)
    (o : List (FieldName × ℚ)) : Prop :=
  o = snapOf init ∨
  ∃ u r, role u = Role.writer r ∧ c.pc u = 13 ∧ o = snapOf (writtenStore r init)

/-- No writer is past its first field write while holding the lock. -/
def noMidWrite (role : Tid → Role) (c : Conf) : Prop :=
  ∀ t r, c.lock = some t → role t = Role.writer r → c.pc t ≤ 7

/-- The global invariant of the request-path system. -/
structure SysInv (role : Tid → Role) (init : FieldName → ℚ) (c : Conf) : Prop where
  pcB : ∀ t, c.pc t ≤ (progOf (role t)).length
  lockC : ∀ t, c.lock = some t ↔ inCrit (role t) (c.pc t)
  frame : ∀ g, g ∉ schemaNames → c.store g = init g
  wTemp : ∀ t r, c.lock = some t → role t = Role.writer r → 8 ≤ c.pc t →
    c.store "temperature" = r.temperature
  wHum : ∀ t r, c.lock = some t → role t = Role.writer r → 9 ≤ c.pc t →
    c.store "humidity" = r.humidity
  wLight : ∀ t r, c.lock = some t → role t = Role.writer r → 10 ≤ c.pc t →
    c.store "light" = r.light
  wCo2 : ∀ t r, c.lock = some t → role t = Role.writer r → 11 ≤ c.pc t →
    c.store "co2" = r.co2
  wTs : ∀ t r, c.lock = some t → role t = Role.writer r → 12 ≤ c.pc t →
    c.store "timestamp" = r.timestamp
  cons : noMidWrite role c → consistentStore role init c
  robs0 : ∀ t, role t = Role.reader → c.pc t ≤ 1 → c.obs t = []
  robs2 : ∀ t, role t = Role.reader → c.pc t = 2 →
    c.obs t = [("temperature", c.store "temperature")]
  robs3 : ∀ t, role t = Role.reader → c.pc t = 3 →
    c.obs t = [("temperature", c.store "temperature"), ("humidity", c.store "humidity")]
  robs4 : ∀ t, role t = Role.reader → c.pc t = 4 →
    c.obs t = [("temperature", c.store "temperature"), ("humidity", c.store "humidity"),
      ("light", c.store "light")]
  robs5 : ∀ t, role t = Role.reader → c.pc t = 5 → c.obs t = snapOf c.store
  robs6 : ∀ t, role t = Role.reader → c.pc t = 6 → consistentSnap role init c (c.obs t)


set_option maxHeartbeats 1000000 in
/-- Pc-only micro-ops of a writer (decode, convert, now) preserve the
invariant. -/
theorem sysInv_bump {role : Tid → Role} {init : FieldName → ℚ} {c : Conf} {t : Tid}
    (hInv : SysInv role init c) (r : UpdateVals)
    (hrole : role t = Role.writer r) (hk : c.pc t = 0 ∨ (2 ≤ c.pc t ∧ c.pc t ≤ 6)) :
    SysInv role init { c with pc := fun u => if u = t then c.pc u + 1 else c.pc u } := by
  refine ⟨?_, ?_, hInv.frame, ?_, ?_, ?_, ?_, ?_, ?_, ?_, ?_, ?_, ?_, ?_, ?_⟩
  · intro u
    by_cases hu : u = t
    · subst hu
      simp [hrole, progOf, writerProg]
      omega
    · simpa [hu] using hInv.pcB u
  · intro u
    by_cases hu : u = t
    · subst hu
      rw [hInv.lockC u, hrole]
      simp [inCrit]
      omega
    · simpa [hu] using hInv.lockC u
  · intro u r' hl hr hpcu
    by_cases hu : u = t
    · subst hu
      simp at hpcu
      omega
    · simp only [if_neg hu] at hpcu
      exact hInv.wTemp u r' hl hr hpcu
  · intro u r' hl hr hpcu
    by_cases hu : u = t
    · subst hu
      simp at hpcu
      omega
    · simp only [if_neg hu] at hpcu
      exact hInv.wHum u r' hl hr hpcu
  · intro u r' hl hr hpcu
    by_cases hu : u = t
    · subst hu
      simp at hpcu
      omega
    · simp only [if_neg hu] at hpcu
      exact hInv.wLight u r' hl hr hpcu
  · intro u r' hl hr hpcu
    by_cases hu : u = t
    · subst hu
      simp at hpcu
      omega
    · simp only [if_neg hu] at hpcu
      exact hInv.wCo2 u r' hl hr hpcu
  · intro u r' hl hr hpcu
    by_cases hu : u = t
    · subst hu
      simp at hpcu
      omega
    · simp only [if_neg hu] at hpcu
      exact hInv.wTs u r' hl hr hpcu
  · intro h'
    have h : noMidWrite role c := by
      intro u ru hlu hru
      have hx := h' u ru hlu hru
      by_cases hu : u = t
      · subst hu
        simp at hx
        omega
      · simpa [hu] using hx
    rcases hInv.cons h with hL | ⟨u, ru, hru, h13, hst⟩
    · exact Or.inl hL
    · refine Or.inr ⟨u, ru, hru, ?_, hst⟩
      have hut : u ≠ t := by
        intro he
        subst he
        omega
      simpa [hut] using h13
  · intro u hu hpcu
    have hut : u ≠ t := by
      intro he
      subst he
      rw [hrole] at hu
      exact Role.noConfusion hu
    simp only [if_neg hut] at hpcu
    exact hInv.robs0 u hu hpcu
  · intro u hu hpcu
    have hut : u ≠ t := by
      intro he
      subst he
      rw [hrole] at hu
      exact Role.noConfusion hu
    simp only [if_neg hut] at hpcu
    exact hInv.robs2 u hu hpcu
  · intro u hu hpcu
    have hut : u ≠ t := by
      intro he
      subst he
      rw [hrole] at hu
      exact Role.noConfusion hu
    simp only [if_neg hut] at hpcu
    exact hInv.robs3 u hu hpcu
  · intro u hu hpcu
    have hut : u ≠ t := by
      intro he
      subst he
      rw [hrole] at hu
      exact Role.noConfusion hu
    simp only [if_neg hut] at hpcu
    exact hInv.robs4 u hu hpcu
  · intro u hu hpcu
    have hut : u ≠ t := by
      intro he
      subst he
      rw [hrole] at hu
      exact Role.noConfusion hu
    simp only [if_neg hut] at hpcu
    exact hInv.robs5 u hu hpcu
  · intro u hu hpcu
    have hut : u ≠ t := by
      intro he
      subst he
      rw [hrole] at hu
      exact Role.noConfusion hu
    simp only [if_neg hut] at hpcu
    rcases hInv.robs6 u hu hpcu with hL | ⟨w, rw2, hw, h13, ho⟩
    · exact Or.inl hL
    · refine Or.inr ⟨w, rw2, hw, ?_, ho⟩
      have hwt : w ≠ t := by
        intro he
        subst he
        omega
      simpa [hwt] using h13

set_option maxHeartbeats 1000000 in
/-- The invariant is preserved by every scheduler step. -/
theorem sysInv_step {role : Tid → Role} {init : FieldName → ℚ} {c c' : Conf} {t : Tid}
    (hInv : SysInv role init c) (hs : Step role t c c') : SysInv role init c' := by
  rcases hs with ⟨op, hop, hen⟩
  rcases hrole : role t with r | _
  · -- writer case
    rw [hrole] at hop
    have hlt : c.pc t < 13 := by
      have h := List.get?_eq_some.mp hop
      simpa [progOf, writerProg] using h.1
    have hd : c.pc t = 0 ∨ c.pc t = 1 ∨ c.pc t = 2 ∨ c.pc t = 3 ∨ c.pc t = 4 ∨
        c.pc t = 5 ∨ c.pc t = 6 ∨ c.pc t = 7 ∨ c.pc t = 8 ∨ c.pc t = 9 ∨
        c.pc t = 10 ∨ c.pc t = 11 ∨ c.pc t = 12 := by omega
    rcases hd with hpc|hpc|hpc|hpc|hpc|hpc|hpc|hpc|hpc|hpc|hpc|hpc|hpc <;>
      rw [hpc] at hop <;> simp only [progOf, writerProg, List.get?, Option.some.injEq] at hop <;> subst hop
    -- 13 goals, one per pc
    case _ => exact sysInv_bump hInv r hrole (by omega)
    case _ =>
      -- pc 1: acquire
      have hlock : c.lock = none := by simpa [enabledB] using hen
      have hnone : ∀ u, ¬ inCrit (role u) (c.pc u) := by
        intro u hiu
        have hx := (hInv.lockC u).mpr hiu
        rw [hlock] at hx
        exact Option.noConfusion hx
      refine ⟨?_, ?_, hInv.frame, ?_, ?_, ?_, ?_, ?_, ?_, ?_, ?_, ?_, ?_, ?_, ?_⟩
      · intro u
        by_cases hu : u = t
        · subst hu
          simp [applyOp, hrole, progOf, writerProg]
          omega
        · simpa [applyOp, hu] using hInv.pcB u
      · intro u
        by_cases hu : u = t
        · subst hu
          constructor
          · intro _
            rw [hrole]
            exact ⟨by simp [applyOp, hpc], by simp [applyOp, hpc]⟩
          · intro _
            rfl
        · refine iff_of_false (fun h => hu (Option.some.inj h).symm) ?_
          intro hiu
          simp only [applyOp, if_neg hu] at hiu
          exact hnone u hiu
      · intro u r' hl hr hpcu
        have hut : t = u := Option.some.inj hl
        subst hut
        simp [applyOp, hpc] at hpcu
      · intro u r' hl hr hpcu
        have hut : t = u := Option.some.inj hl
        subst hut
        simp [applyOp, hpc] at hpcu
      · intro u r' hl hr hpcu
        have hut : t = u := Option.some.inj hl
        subst hut
        simp [applyOp, hpc] at hpcu
      · intro u r' hl hr hpcu
        have hut : t = u := Option.some.inj hl
        subst hut
        simp [applyOp, hpc] at hpcu
      · intro u r' hl hr hpcu
        have hut : t = u := Option.some.inj hl
        subst hut
        simp [applyOp, hpc] at hpcu
      · intro _
        have hmw : noMidWrite role c := by
          intro u ru hlu hru
          rw [hlock] at hlu
          exact Option.noConfusion hlu
        rcases hInv.cons hmw with hL | ⟨w, rw2, hw, h13, hst⟩
        · exact Or.inl hL
        · refine Or.inr ⟨w, rw2, hw, ?_, hst⟩
          have hwt : w ≠ t := by
            intro he
            subst he
            omega
          simpa [applyOp, hwt] using h13
      · intro u hu hpcu
        have hut : u ≠ t := by
          intro he
          subst he
          rw [hrole] at hu
          exact Role.noConfusion hu
        simp only [applyOp, if_neg hut] at hpcu
        exact hInv.robs0 u hu hpcu
      · intro u hu hpcu
        have hut : u ≠ t := by
          intro he
          subst he
          rw [hrole] at hu
          exact Role.noConfusion hu
        simp only [applyOp, if_neg hut] at hpcu
        exact hInv.robs2 u hu hpcu
      · intro u hu hpcu
        have hut : u ≠ t := by
          intro he
          subst he
          rw [hrole] at hu
          exact Role.noConfusion hu
        simp only [applyOp, if_neg hut] at hpcu
        exact hInv.robs3 u hu hpcu
      · intro u hu hpcu
        have hut : u ≠ t := by
          intro he
          subst he
          rw [hrole] at hu
          exact Role.noConfusion hu
        simp only [applyOp, if_neg hut] at hpcu
        exact hInv.robs4 u hu hpcu
      · intro u hu hpcu
        have hut : u ≠ t := by
          intro he
          subst he
          rw [hrole] at hu
          exact Role.noConfusion hu
        simp only [applyOp, if_neg hut] at hpcu
        exact hInv.robs5 u hu hpcu
      · intro u hu hpcu
        have hut : u ≠ t := by
          intro he
          subst he
          rw [hrole] at hu
          exact Role.noConfusion hu
        simp only [applyOp, if_neg hut] at hpcu
        rcases hInv.robs6 u hu hpcu with hL | ⟨w, rw2, hw, h13, ho⟩
        · exact Or.inl hL
        · refine Or.inr ⟨w, rw2, hw, ?_, ho⟩
          have hwt : w ≠ t := by
            intro he
            subst he
            omega
          simpa [applyOp, hwt] using h13
    case _ => exact sysInv_bump hInv r hrole (by omega)
    case _ => exact sysInv_bump hInv r hrole (by omega)
    case _ => exact sysInv_bump hInv r hrole (by omega)
    case _ => exact sysInv_bump hInv r hrole (by omega)
    case _ => exact sysInv_bump hInv r hrole (by omega)
    case _ =>
      -- pc 7: write temperature
      have hlockt : c.lock = some t := by
        rw [hInv.lockC t, hrole]
        exact ⟨by omega, by omega⟩
      have hnr : ∀ u, role u = Role.reader → ¬(1 ≤ c.pc u ∧ c.pc u ≤ 5) := by
        intro u hu hb
        have hx := (hInv.lockC u).mpr (by rw [hu]; exact hb)
        rw [hlockt] at hx
        have hut : t = u := Option.some.inj hx
        subst hut
        rw [hrole] at hu
        exact Role.noConfusion hu
      refine ⟨?_, ?_, ?_, ?_, ?_, ?_, ?_, ?_, ?_, ?_, ?_, ?_, ?_, ?_, ?_⟩
      · intro u
        by_cases hu : u = t
        · subst hu
          simp [applyOp, hrole, progOf, writerProg]
          omega
        · simpa [applyOp, hu] using hInv.pcB u
      · intro u
        by_cases hu : u = t
        · subst hu
          refine iff_of_true hlockt ?_
          rw [hrole]
          exact ⟨by simp [applyOp, hpc], by simp [applyOp, hpc]⟩
        · refine iff_of_false ?_ ?_
          · intro h
            have h2 : c.lock = some u := h
            rw [hlockt] at h2
            exact hu (Option.some.inj h2).symm
          · intro hiu
            simp only [applyOp, if_neg hu] at hiu
            have hx := (hInv.lockC u).mpr hiu
            rw [hlockt] at hx
            exact hu (Option.some.inj hx).symm
      · intro g hg
        have hgf : g ≠ "temperature" := by
          intro he
          subst he
          simp [schemaNames] at hg
        simp only [applyOp, if_neg hgf]
        exact hInv.frame g hg
      · intro u r' hl hr hpcu
        have hl2 : c.lock = some u := hl
        rw [hlockt] at hl2
        have hut : t = u := Option.some.inj hl2
        subst hut
        rw [hrole] at hr
        injection hr with hrr
        subst hrr
        simp [applyOp]
      · intro u r' hl hr hpcu
        have hl2 : c.lock = some u := hl
        rw [hlockt] at hl2
        have hut : t = u := Option.some.inj hl2
        subst hut
        simp [applyOp, hpc] at hpcu
      · intro u r' hl hr hpcu
        have hl2 : c.lock = some u := hl
        rw [hlockt] at hl2
        have hut : t = u := Option.some.inj hl2
        subst hut
        simp [applyOp, hpc] at hpcu
      · intro u r' hl hr hpcu
        have hl2 : c.lock = some u := hl
        rw [hlockt] at hl2
        have hut : t = u := Option.some.inj hl2
        subst hut
        simp [applyOp, hpc] at hpcu
      · intro u r' hl hr hpcu
        have hl2 : c.lock = some u := hl
        rw [hlockt] at hl2
        have hut : t = u := Option.some.inj hl2
        subst hut
        simp [applyOp, hpc] at hpcu
      · intro h2
        have hx := h2 t r hlockt hrole
        simp [applyOp, hpc] at hx
      · intro u hu hpcu
        have hut : u ≠ t := by
          intro he
          subst he
          rw [hrole] at hu
          exact Role.noConfusion hu
        simp only [applyOp, if_neg hut] at hpcu
        exact hInv.robs0 u hu hpcu
      · intro u hu hpcu
        have hut : u ≠ t := by
          intro he
          subst he
          rw [hrole] at hu
          exact Role.noConfusion hu
        simp only [applyOp, if_neg hut] at hpcu
        exact absurd ⟨by omega, by omega⟩ (hnr u hu)
      · intro u hu hpcu
        have hut : u ≠ t := by
          intro he
          subst he
          rw [hrole] at hu
          exact Role.noConfusion hu
        simp only [applyOp, if_neg hut] at hpcu
        exact absurd ⟨by omega, by omega⟩ (hnr u hu)
      · intro u hu hpcu
        have hut : u ≠ t := by
          intro he
          subst he
          rw [hrole] at hu
          exact Role.noConfusion hu
        simp only [applyOp, if_neg hut] at hpcu
        exact absurd ⟨by omega, by omega⟩ (hnr u hu)
      · intro u hu hpcu
        have hut : u ≠ t := by
          intro he
          subst he
          rw [hrole] at hu
          exact Role.noConfusion hu
        simp only [applyOp, if_neg hut] at hpcu
        exact absurd ⟨by omega, by omega⟩ (hnr u hu)
      · intro u hu hpcu
        have hut : u ≠ t := by
          intro he
          subst he
          rw [hrole] at hu
          exact Role.noConfusion hu
        simp only [applyOp, if_neg hut] at hpcu
        rcases hInv.robs6 u hu hpcu with hL | ⟨w, rw2, hw, h13, ho⟩
        · exact Or.inl hL
        · refine Or.inr ⟨w, rw2, hw, ?_, ho⟩
          have hwt : w ≠ t := by
            intro he
            subst he
            omega
          simpa [applyOp, hwt] using h13
    case _ =>
      -- pc 8: write humidity
      have hlockt : c.lock = some t := by
        rw [hInv.lockC t, hrole]
        exact ⟨by omega, by omega⟩
      have hnr : ∀ u, role u = Role.reader → ¬(1 ≤ c.pc u ∧ c.pc u ≤ 5) := by
        intro u hu hb
        have hx := (hInv.lockC u).mpr (by rw [hu]; exact hb)
        rw [hlockt] at hx
        have hut : t = u := Option.some.inj hx
        subst hut
        rw [hrole] at hu
        exact Role.noConfusion hu
      refine ⟨?_, ?_, ?_, ?_, ?_, ?_, ?_, ?_, ?_, ?_, ?_, ?_, ?_, ?_, ?_⟩
      · intro u
        by_cases hu : u = t
        · subst hu
          simp [applyOp, hrole, progOf, writerProg]
          omega
        · simpa [applyOp, hu] using hInv.pcB u
      · intro u
        by_cases hu : u = t
        · subst hu
          refine iff_of_true hlockt ?_
          rw [hrole]
          exact ⟨by simp [applyOp, hpc], by simp [applyOp, hpc]⟩
        · refine iff_of_false ?_ ?_
          · intro h
            have h2 : c.lock = some u := h
            rw [hlockt] at h2
            exact hu (Option.some.inj h2).symm
          · intro hiu
            simp only [applyOp, if_neg hu] at hiu
            have hx := (hInv.lockC u).mpr hiu
            rw [hlockt] at hx
            exact hu (Option.some.inj hx).symm
      · intro g hg
        have hgf : g ≠ "humidity" := by
          intro he
          subst he
          simp [schemaNames] at hg
        simp only [applyOp, if_neg hgf]
        exact hInv.frame g hg
      · intro u r' hl hr hpcu
        have hl2 : c.lock = some u := hl
        rw [hlockt] at hl2
        have hut : t = u := Option.some.inj hl2
        subst hut
        rw [hrole] at hr
        injection hr with hrr
        subst hrr
        simpa [applyOp] using hInv.wTemp t r hlockt hrole (by omega)
      · intro u r' hl hr hpcu
        have hl2 : c.lock = some u := hl
        rw [hlockt] at hl2
        have hut : t = u := Option.some.inj hl2
        subst hut
        rw [hrole] at hr
        injection hr with hrr
        subst hrr
        simp [applyOp]
      · intro u r' hl hr hpcu
        have hl2 : c.lock = some u := hl
        rw [hlockt] at hl2
        have hut : t = u := Option.some.inj hl2
        subst hut
        simp [applyOp, hpc] at hpcu
      · intro u r' hl hr hpcu
        have hl2 : c.lock = some u := hl
        rw [hlockt] at hl2
        have hut : t = u := Option.some.inj hl2
        subst hut
        simp [applyOp, hpc] at hpcu
      · intro u r' hl hr hpcu
        have hl2 : c.lock = some u := hl
        rw [hlockt] at hl2
        have hut : t = u := Option.some.inj hl2
        subst hut
        simp [applyOp, hpc] at hpcu
      · intro h2
        have hx := h2 t r hlockt hrole
        simp [applyOp, hpc] at hx
      · intro u hu hpcu
        have hut : u ≠ t := by
          intro he
          subst he
          rw [hrole] at hu
          exact Role.noConfusion hu
        simp only [applyOp, if_neg hut] at hpcu
        exact hInv.robs0 u hu hpcu
      · intro u hu hpcu
        have hut : u ≠ t := by
          intro he
          subst he
          rw [hrole] at hu
          exact Role.noConfusion hu
        simp only [applyOp, if_neg hut] at hpcu
        exact absurd ⟨by omega, by omega⟩ (hnr u hu)
      · intro u hu hpcu
        have hut : u ≠ t := by
          intro he
          subst he
          rw [hrole] at hu
          exact Role.noConfusion hu
        simp only [applyOp, if_neg hut] at hpcu
        exact absurd ⟨by omega, by omega⟩ (hnr u hu)
      · intro u hu hpcu
        have hut : u ≠ t := by
          intro he
          subst he
          rw [hrole] at hu
          exact Role.noConfusion hu
        simp only [applyOp, if_neg hut] at hpcu
        exact absurd ⟨by omega, by omega⟩ (hnr u hu)
      · intro u hu hpcu
        have hut : u ≠ t := by
          intro he
          subst he
          rw [hrole] at hu
          exact Role.noConfusion hu
        simp only [applyOp, if_neg hut] at hpcu
        exact absurd ⟨by omega, by omega⟩ (hnr u hu)
      · intro u hu hpcu
        have hut : u ≠ t := by
          intro he
          subst he
          rw [hrole] at hu
          exact Role.noConfusion hu
        simp only [applyOp, if_neg hut] at hpcu
        rcases hInv.robs6 u hu hpcu with hL | ⟨w, rw2, hw, h13, ho⟩
        · exact Or.inl hL
        · refine Or.inr ⟨w, rw2, hw, ?_, ho⟩
          have hwt : w ≠ t := by
            intro he
            subst he
            omega
          simpa [applyOp, hwt] using h13
    case _ =>
      -- pc 9: write light
      have hlockt : c.lock = some t := by
        rw [hInv.lockC t, hrole]
        exact ⟨by omega, by omega⟩
      have hnr : ∀ u, role u = Role.reader → ¬(1 ≤ c.pc u ∧ c.pc u ≤ 5) := by
        intro u hu hb
        have hx := (hInv.lockC u).mpr (by rw [hu]; exact hb)
        rw [hlockt] at hx
        have hut : t = u := Option.some.inj hx
        subst hut
        rw [hrole] at hu
        exact Role.noConfusion hu
      refine ⟨?_, ?_, ?_, ?_, ?_, ?_, ?_, ?_, ?_, ?_, ?_, ?_, ?_, ?_, ?_⟩
      · intro u
        by_cases hu : u = t
        · subst hu
          simp [applyOp, hrole, progOf, writerProg]
          omega
        · simpa [applyOp, hu] using hInv.pcB u
      · intro u
        by_cases hu : u = t
        · subst hu
          refine iff_of_true hlockt ?_
          rw [hrole]
          exact ⟨by simp [applyOp, hpc], by simp [applyOp, hpc]⟩
        · refine iff_of_false ?_ ?_
          · intro h
            have h2 : c.lock = some u := h
            rw [hlockt] at h2
            exact hu (Option.some.inj h2).symm
          · intro hiu
            simp only [applyOp, if_neg hu] at hiu
            have hx := (hInv.lockC u).mpr hiu
            rw [hlockt] at hx
            exact hu (Option.some.inj hx).symm
      · intro g hg
        have hgf : g ≠ "light" := by
          intro he
          subst he
          simp [schemaNames] at hg
        simp only [applyOp, if_neg hgf]
        exact hInv.frame g hg
      · intro u r' hl hr hpcu
        have hl2 : c.lock = some u := hl
        rw [hlockt] at hl2
        have hut : t = u := Option.some.inj hl2
        subst hut
        rw [hrole] at hr
        injection hr with hrr
        subst hrr
        simpa [applyOp] using hInv.wTemp t r hlockt hrole (by omega)
      · intro u r' hl hr hpcu
        have hl2 : c.lock = some u := hl
        rw [hlockt] at hl2
        have hut : t = u := Option.some.inj hl2
        subst hut
        rw [hrole] at hr
        injection hr with hrr
        subst hrr
        simpa [applyOp] using hInv.wHum t r hlockt hrole (by omega)
      · intro u r' hl hr hpcu
        have hl2 : c.lock = some u := hl
        rw [hlockt] at hl2
        have hut : t = u := Option.some.inj hl2
        subst hut
        rw [hrole] at hr
        injection hr with hrr
        subst hrr
        simp [applyOp]
      · intro u r' hl hr hpcu
        have hl2 : c.lock = some u := hl
        rw [hlockt] at hl2
        have hut : t = u := Option.some.inj hl2
        subst hut
        simp [applyOp, hpc] at hpcu
      · intro u r' hl hr hpcu
        have hl2 : c.lock = some u := hl
        rw [hlockt] at hl2
        have hut : t = u := Option.some.inj hl2
        subst hut
        simp [applyOp, hpc] at hpcu
      · intro h2
        have hx := h2 t r hlockt hrole
        simp [applyOp, hpc] at hx
      · intro u hu hpcu
        have hut : u ≠ t := by
          intro he
          subst he
          rw [hrole] at hu
          exact Role.noConfusion hu
        simp only [applyOp, if_neg hut] at hpcu
        exact hInv.robs0 u hu hpcu
      · intro u hu hpcu
        have hut : u ≠ t := by
          intro he
          subst he
          rw [hrole] at hu
          exact Role.noConfusion hu
        simp only [applyOp, if_neg hut] at hpcu
        exact absurd ⟨by omega, by omega⟩ (hnr u hu)
      · intro u hu hpcu
        have hut : u ≠ t := by
          intro he
          subst he
          rw [hrole] at hu
          exact Role.noConfusion hu
        simp only [applyOp, if_neg hut] at hpcu
        exact absurd ⟨by omega, by omega⟩ (hnr u hu)
      · intro u hu hpcu
        have hut : u ≠ t := by
          intro he
          subst he
          rw [hrole] at hu
          exact Role.noConfusion hu
        simp only [applyOp, if_neg hut] at hpcu
        exact absurd ⟨by omega, by omega⟩ (hnr u hu)
      · intro u hu hpcu
        have hut : u ≠ t := by
          intro he
          subst he
          rw [hrole] at hu
          exact Role.noConfusion hu
        simp only [applyOp, if_neg hut] at hpcu
        exact absurd ⟨by omega, by omega⟩ (hnr u hu)
      · intro u hu hpcu
        have hut : u ≠ t := by
          intro he
          subst he
          rw [hrole] at hu
          exact Role.noConfusion hu
        simp only [applyOp, if_neg hut] at hpcu
        rcases hInv.robs6 u hu hpcu with hL | ⟨w, rw2, hw, h13, ho⟩
        · exact Or.inl hL
        · refine Or.inr ⟨w, rw2, hw, ?_, ho⟩
          have hwt : w ≠ t := by
            intro he
            subst he
            omega
          simpa [applyOp, hwt] using h13
    case _ =>
      -- pc 10: write co2
      have hlockt : c.lock = some t := by
        rw [hInv.lockC t, hrole]
        exact ⟨by omega, by omega⟩
      have hnr : ∀ u, role u = Role.reader → ¬(1 ≤ c.pc u ∧ c.pc u ≤ 5) := by
        intro u hu hb
        have hx := (hInv.lockC u).mpr (by rw [hu]; exact hb)
        rw [hlockt] at hx
        have hut : t = u := Option.some.inj hx
        subst hut
        rw [hrole] at hu
        exact Role.noConfusion hu
      refine ⟨?_, ?_, ?_, ?_, ?_, ?_, ?_, ?_, ?_, ?_, ?_, ?_, ?_, ?_, ?_⟩
      · intro u
        by_cases hu : u = t
        · subst hu
          simp [applyOp, hrole, progOf, writerProg]
          omega
        · simpa [applyOp, hu] using hInv.pcB u
      · intro u
        by_cases hu : u = t
        · subst hu
          refine iff_of_true hlockt ?_
          rw [hrole]
          exact ⟨by simp [applyOp, hpc], by simp [applyOp, hpc]⟩
        · refine iff_of_false ?_ ?_
          · intro h
            have h2 : c.lock = some u := h
            rw [hlockt] at h2
            exact hu (Option.some.inj h2).symm
          · intro hiu
            simp only [applyOp, if_neg hu] at hiu
            have hx := (hInv.lockC u).mpr hiu
            rw [hlockt] at hx
            exact hu (Option.some.inj hx).symm
      · intro g hg
        have hgf : g ≠ "co2" := by
          intro he
          subst he
          simp [schemaNames] at hg
        simp only [applyOp, if_neg hgf]
        exact hInv.frame g hg
      · intro u r' hl hr hpcu
        have hl2 : c.lock = some u := hl
        rw [hlockt] at hl2
        have hut : t = u := Option.some.inj hl2
        subst hut
        rw [hrole] at hr
        injection hr with hrr
        subst hrr
        simpa [applyOp] using hInv.wTemp t r hlockt hrole (by omega)
      · intro u r' hl hr hpcu
        have hl2 : c.lock = some u := hl
        rw [hlockt] at hl2
        have hut : t = u := Option.some.inj hl2
        subst hut
        rw [hrole] at hr
        injection hr with hrr
        subst hrr
        simpa [applyOp] using hInv.wHum t r hlockt hrole (by omega)
      · intro u r' hl hr hpcu
        have hl2 : c.lock = some u := hl
        rw [hlockt] at hl2
        have hut : t = u := Option.some.inj hl2
        subst hut
        rw [hrole] at hr
        injection hr with hrr
        subst hrr
        simpa [applyOp] using hInv.wLight t r hlockt hrole (by omega)
      · intro u r' hl hr hpcu
        have hl2 : c.lock = some u := hl
        rw [hlockt] at hl2
        have hut : t = u := Option.some.inj hl2
        subst hut
        rw [hrole] at hr
        injection hr with hrr
        subst hrr
        simp [applyOp]
      · intro u r' hl hr hpcu
        have hl2 : c.lock = some u := hl
        rw [hlockt] at hl2
        have hut : t = u := Option.some.inj hl2
        subst hut
        simp [applyOp, hpc] at hpcu
      · intro h2
        have hx := h2 t r hlockt hrole
        simp [applyOp, hpc] at hx
      · intro u hu hpcu
        have hut : u ≠ t := by
          intro he
          subst he
          rw [hrole] at hu
          exact Role.noConfusion hu
        simp only [applyOp, if_neg hut] at hpcu
        exact hInv.robs0 u hu hpcu
      · intro u hu hpcu
        have hut : u ≠ t := by
          intro he
          subst he
          rw [hrole] at hu
          exact Role.noConfusion hu
        simp only [applyOp, if_neg hut] at hpcu
        exact absurd ⟨by omega, by omega⟩ (hnr u hu)
      · intro u hu hpcu
        have hut : u ≠ t := by
          intro he
          subst he
          rw [hrole] at hu
          exact Role.noConfusion hu
        simp only [applyOp, if_neg hut] at hpcu
        exact absurd ⟨by omega, by omega⟩ (hnr u hu)
      · intro u hu hpcu
        have hut : u ≠ t := by
          intro he
          subst he
          rw [hrole] at hu
          exact Role.noConfusion hu
        simp only [applyOp, if_neg hut] at hpcu
        exact absurd ⟨by omega, by omega⟩ (hnr u hu)
      · intro u hu hpcu
        have hut : u ≠ t := by
          intro he
          subst he
          rw [hrole] at hu
          exact Role.noConfusion hu
        simp only [applyOp, if_neg hut] at hpcu
        exact absurd ⟨by omega, by omega⟩ (hnr u hu)
      · intro u hu hpcu
        have hut : u ≠ t := by
          intro he
          subst he
          rw [hrole] at hu
          exact Role.noConfusion hu
        simp only [applyOp, if_neg hut] at hpcu
        rcases hInv.robs6 u hu hpcu with hL | ⟨w, rw2, hw, h13, ho⟩
        · exact Or.inl hL
        · refine Or.inr ⟨w, rw2, hw, ?_, ho⟩
          have hwt : w ≠ t := by
            intro he
            subst he
            omega
          simpa [applyOp, hwt] using h13
    case _ =>
      -- pc 11: write timestamp
      have hlockt : c.lock = some t := by
        rw [hInv.lockC t, hrole]
        exact ⟨by omega, by omega⟩
      have hnr : ∀ u, role u = Role.reader → ¬(1 ≤ c.pc u ∧ c.pc u ≤ 5) := by
        intro u hu hb
        have hx := (hInv.lockC u).mpr (by rw [hu]; exact hb)
        rw [hlockt] at hx
        have hut : t = u := Option.some.inj hx
        subst hut
        rw [hrole] at hu
        exact Role.noConfusion hu
      refine ⟨?_, ?_, ?_, ?_, ?_, ?_, ?_, ?_, ?_, ?_, ?_, ?_, ?_, ?_, ?_⟩
      · intro u
        by_cases hu : u = t
        · subst hu
          simp [applyOp, hrole, progOf, writerProg]
          omega
        · simpa [applyOp, hu] using hInv.pcB u
      · intro u
        by_cases hu : u = t
        · subst hu
          refine iff_of_true hlockt ?_
          rw [hrole]
          exact ⟨by simp [applyOp, hpc], by simp [applyOp, hpc]⟩
        · refine iff_of_false ?_ ?_
          · intro h
            have h2 : c.lock = some u := h
            rw [hlockt] at h2
            exact hu (Option.some.inj h2).symm
          · intro hiu
            simp only [applyOp, if_neg hu] at hiu
            have hx := (hInv.lockC u).mpr hiu
            rw [hlockt] at hx
            exact hu (Option.some.inj hx).symm
      · intro g hg
        have hgf : g ≠ "timestamp" := by
          intro he
          subst he
          simp [schemaNames] at hg
        simp only [applyOp, if_neg hgf]
        exact hInv.frame g hg
      · intro u r' hl hr hpcu
        have hl2 : c.lock = some u := hl
        rw [hlockt] at hl2
        have hut : t = u := Option.some.inj hl2
        subst hut
        rw [hrole] at hr
        injection hr with hrr
        subst hrr
        simpa [applyOp] using hInv.wTemp t r hlockt hrole (by omega)
      · intro u r' hl hr hpcu
        have hl2 : c.lock = some u := hl
        rw [hlockt] at hl2
        have hut : t = u := Option.some.inj hl2
        subst hut
        rw [hrole] at hr
        injection hr with hrr
        subst hrr
        simpa [applyOp] using hInv.wHum t r hlockt hrole (by omega)
      · intro u r' hl hr hpcu
        have hl2 : c.lock = some u := hl
        rw [hlockt] at hl2
        have hut : t = u := Option.some.inj hl2
        subst hut
        rw [hrole] at hr
        injection hr with hrr
        subst hrr
        simpa [applyOp] using hInv.wLight t r hlockt hrole (by omega)
      · intro u r' hl hr hpcu
        have hl2 : c.lock = some u := hl
        rw [hlockt] at hl2
        have hut : t = u := Option.some.inj hl2
        subst hut
        rw [hrole] at hr
        injection hr with hrr
        subst hrr
        simpa [applyOp] using hInv.wCo2 t r hlockt hrole (by omega)
      · intro u r' hl hr hpcu
        have hl2 : c.lock = some u := hl
        rw [hlockt] at hl2
        have hut : t = u := Option.some.inj hl2
        subst hut
        rw [hrole] at hr
        injection hr with hrr
        subst hrr
        simp [applyOp]
      · intro h2
        have hx := h2 t r hlockt hrole
        simp [applyOp, hpc] at hx
      · intro u hu hpcu
        have hut : u ≠ t := by
          intro he
          subst he
          rw [hrole] at hu
          exact Role.noConfusion hu
        simp only [applyOp, if_neg hut] at hpcu
        exact hInv.robs0 u hu hpcu
      · intro u hu hpcu
        have hut : u ≠ t := by
          intro he
          subst he
          rw [hrole] at hu
          exact Role.noConfusion hu
        simp only [applyOp, if_neg hut] at hpcu
        exact absurd ⟨by omega, by omega⟩ (hnr u hu)
      · intro u hu hpcu
        have hut : u ≠ t := by
          intro he
          subst he
          rw [hrole] at hu
          exact Role.noConfusion hu
        simp only [applyOp, if_neg hut] at hpcu
        exact absurd ⟨by omega, by omega⟩ (hnr u hu)
      · intro u hu hpcu
        have hut : u ≠ t := by
          intro he
          subst he
          rw [hrole] at hu
          exact Role.noConfusion hu
        simp only [applyOp, if_neg hut] at hpcu
        exact absurd ⟨by omega, by omega⟩ (hnr u hu)
      · intro u hu hpcu
        have hut : u ≠ t := by
          intro he
          subst he
          rw [hrole] at hu
          exact Role.noConfusion hu
        simp only [applyOp, if_neg hut] at hpcu
        exact absurd ⟨by omega, by omega⟩ (hnr u hu)
      · intro u hu hpcu
        have hut : u ≠ t := by
          intro he
          subst he
          rw [hrole] at hu
          exact Role.noConfusion hu
        simp only [applyOp, if_neg hut] at hpcu
        rcases hInv.robs6 u hu hpcu with hL | ⟨w, rw2, hw, h13, ho⟩
        · exact Or.inl hL
        · refine Or.inr ⟨w, rw2, hw, ?_, ho⟩
          have hwt : w ≠ t := by
            intro he
            subst he
            omega
          simpa [applyOp, hwt] using h13
    case _ =>
      -- pc 12: release, store now carries the full update
      have hlockt : c.lock = some t := by
        rw [hInv.lockC t, hrole]
        exact ⟨by omega, by omega⟩
      have h1 := hInv.wTemp t r hlockt hrole (by omega)
      have h2 := hInv.wHum t r hlockt hrole (by omega)
      have h3 := hInv.wLight t r hlockt hrole (by omega)
      have h4 := hInv.wCo2 t r hlockt hrole (by omega)
      have h5 := hInv.wTs t r hlockt hrole (by omega)
      have hfull : ∀ g, c.store g = writtenStore r init g := by
        intro g
        simp only [writtenStore]
        split_ifs with e1 e2 e3 e4 e5
        · subst e1
          exact h1
        · subst e2
          exact h2
        · subst e3
          exact h3
        · subst e4
          exact h4
        · subst e5
          exact h5
        · exact hInv.frame g (by simp [schemaNames, e1, e2, e3, e4, e5])
      refine ⟨?_, ?_, hInv.frame, ?_, ?_, ?_, ?_, ?_, ?_, ?_, ?_, ?_, ?_, ?_, ?_⟩
      · intro u
        by_cases hu : u = t
        · subst hu
          simp [applyOp, hrole, progOf, writerProg]
          omega
        · simpa [applyOp, hu] using hInv.pcB u
      · intro u
        refine iff_of_false (fun h => Option.noConfusion h) ?_
        intro hiu
        by_cases hu : u = t
        · subst hu
          rw [hrole] at hiu
          simp [applyOp, inCrit] at hiu
          omega
        · simp only [applyOp, if_neg hu] at hiu
          have hx := (hInv.lockC u).mpr hiu
          rw [hlockt] at hx
          exact hu (Option.some.inj hx).symm
      · intro u r' hl hr hpcu
        exact absurd hl (by simp [applyOp])
      · intro u r' hl hr hpcu
        exact absurd hl (by simp [applyOp])
      · intro u r' hl hr hpcu
        exact absurd hl (by simp [applyOp])
      · intro u r' hl hr hpcu
        exact absurd hl (by simp [applyOp])
      · intro u r' hl hr hpcu
        exact absurd hl (by simp [applyOp])
      · intro _
        refine Or.inr ⟨t, r, hrole, ?_, hfull⟩
        simp [applyOp, hpc]
      · intro u hu hpcu
        have hut : u ≠ t := by
          intro he
          subst he
          rw [hrole] at hu
          exact Role.noConfusion hu
        simp only [applyOp, if_neg hut] at hpcu
        exact hInv.robs0 u hu hpcu
      · intro u hu hpcu
        have hut : u ≠ t := by
          intro he
          subst he
          rw [hrole] at hu
          exact Role.noConfusion hu
        simp only [applyOp, if_neg hut] at hpcu
        exact hInv.robs2 u hu hpcu
      · intro u hu hpcu
        have hut : u ≠ t := by
          intro he
          subst he
          rw [hrole] at hu
          exact Role.noConfusion hu
        simp only [applyOp, if_neg hut] at hpcu
        exact hInv.robs3 u hu hpcu
      · intro u hu hpcu
        have hut : u ≠ t := by
          intro he
          subst he
          rw [hrole] at hu
          exact Role.noConfusion hu
        simp only [applyOp, if_neg hut] at hpcu
        exact hInv.robs4 u hu hpcu
      · intro u hu hpcu
        have hut : u ≠ t := by
          intro he
          subst he
          rw [hrole] at hu
          exact Role.noConfusion hu
        simp only [applyOp, if_neg hut] at hpcu
        exact hInv.robs5 u hu hpcu
      · intro u hu hpcu
        have hut : u ≠ t := by
          intro he
          subst he
          rw [hrole] at hu
          exact Role.noConfusion hu
        simp only [applyOp, if_neg hut] at hpcu
        rcases hInv.robs6 u hu hpcu with hL | ⟨w, rw2, hw, h13, ho⟩
        · exact Or.inl hL
        · refine Or.inr ⟨w, rw2, hw, ?_, ho⟩
          have hwt : w ≠ t := by
            intro he
            subst he
            omega
          simpa [applyOp, hwt] using h13
  · -- reader case
    rw [hrole] at hop
    have hlt : c.pc t < 6 := by
      have h := List.get?_eq_some.mp hop
      simpa [progOf, readerProg] using h.1
    have hd : c.pc t = 0 ∨ c.pc t = 1 ∨ c.pc t = 2 ∨ c.pc t = 3 ∨ c.pc t = 4 ∨
        c.pc t = 5 := by omega
    rcases hd with hpc|hpc|hpc|hpc|hpc|hpc <;>
      rw [hpc] at hop <;> simp only [progOf, readerProg, List.get?, Option.some.injEq] at hop <;> subst hop
    case _ =>
      -- reader pc 0: acquire
      have hlock : c.lock = none := by simpa [enabledB] using hen
      have hnone : ∀ u, ¬ inCrit (role u) (c.pc u) := by
        intro u hiu
        have hx := (hInv.lockC u).mpr hiu
        rw [hlock] at hx
        exact Option.noConfusion hx
      refine ⟨?_, ?_, hInv.frame, ?_, ?_, ?_, ?_, ?_, ?_, ?_, ?_, ?_, ?_, ?_, ?_⟩
      · intro u
        by_cases hu : u = t
        · subst hu
          simp [applyOp, hrole, progOf, readerProg]
          omega
        · simpa [applyOp, hu] using hInv.pcB u
      · intro u
        by_cases hu : u = t
        · subst hu
          constructor
          · intro _
            rw [hrole]
            exact ⟨by simp [applyOp, hpc], by simp [applyOp, hpc]⟩
          · intro _
            rfl
        · refine iff_of_false (fun h => hu (Option.some.inj h).symm) ?_
          intro hiu
          simp only [applyOp, if_neg hu] at hiu
          exact hnone u hiu
      · intro u r' hl hr hpcu
        have hut : t = u := Option.some.inj hl
        subst hut
        rw [hrole] at hr
        exact Role.noConfusion hr
      · intro u r' hl hr hpcu
        have hut : t = u := Option.some.inj hl
        subst hut
        rw [hrole] at hr
        exact Role.noConfusion hr
      · intro u r' hl hr hpcu
        have hut : t = u := Option.some.inj hl
        subst hut
        rw [hrole] at hr
        exact Role.noConfusion hr
      · intro u r' hl hr hpcu
        have hut : t = u := Option.some.inj hl
        subst hut
        rw [hrole] at hr
        exact Role.noConfusion hr
      · intro u r' hl hr hpcu
        have hut : t = u := Option.some.inj hl
        subst hut
        rw [hrole] at hr
        exact Role.noConfusion hr
      · intro _
        have hmw : noMidWrite role c := by
          intro w rw2 hlw hrw
          rw [hlock] at hlw
          exact Option.noConfusion hlw
        rcases hInv.cons hmw with hL | ⟨w, rw2, hw, h13, hst⟩
        · exact Or.inl hL
        · refine Or.inr ⟨w, rw2, hw, ?_, hst⟩
          have hwt : w ≠ t := by
            intro he
            subst he
            rw [hrole] at hw
            exact Role.noConfusion hw
          simpa [applyOp, hwt] using h13
      · intro u hu hpcu
        by_cases hu2 : u = t
        · subst hu2
          exact hInv.robs0 u hu (by omega)
        · simp only [applyOp, if_neg hu2] at hpcu
          exact hInv.robs0 u hu hpcu
      · intro u hu hpcu
        by_cases hu2 : u = t
        · subst hu2
          simp [applyOp, hpc] at hpcu
        · simp only [applyOp, if_neg hu2] at hpcu
          exact hInv.robs2 u hu hpcu
      · intro u hu hpcu
        by_cases hu2 : u = t
        · subst hu2
          simp [applyOp, hpc] at hpcu
        · simp only [applyOp, if_neg hu2] at hpcu
          exact hInv.robs3 u hu hpcu
      · intro u hu hpcu
        by_cases hu2 : u = t
        · subst hu2
          simp [applyOp, hpc] at hpcu
        · simp only [applyOp, if_neg hu2] at hpcu
          exact hInv.robs4 u hu hpcu
      · intro u hu hpcu
        by_cases hu2 : u = t
        · subst hu2
          simp [applyOp, hpc] at hpcu
        · simp only [applyOp, if_neg hu2] at hpcu
          exact hInv.robs5 u hu hpcu
      · intro u hu hpcu
        by_cases hu2 : u = t
        · subst hu2
          simp [applyOp, hpc] at hpcu
        · simp only [applyOp, if_neg hu2] at hpcu
          rcases hInv.robs6 u hu hpcu with hL | ⟨w, rw2, hw, h13, ho⟩
          · exact Or.inl hL
          · refine Or.inr ⟨w, rw2, hw, ?_, ho⟩
            have hwt : w ≠ t := by
              intro he
              subst he
              rw [hrole] at hw
              exact Role.noConfusion hw
            simpa [applyOp, hwt] using h13
    case _ =>
      -- reader pc 1: read temperature
      have hlockt : c.lock = some t := by
        rw [hInv.lockC t, hrole]
        exact ⟨by omega, by omega⟩
      refine ⟨?_, ?_, hInv.frame, ?_, ?_, ?_, ?_, ?_, ?_, ?_, ?_, ?_, ?_, ?_, ?_⟩
      · intro u
        by_cases hu : u = t
        · subst hu
          simp [applyOp, hrole, progOf, readerProg]
          omega
        · simpa [applyOp, hu] using hInv.pcB u
      · intro u
        by_cases hu : u = t
        · subst hu
          refine iff_of_true hlockt ?_
          rw [hrole]
          exact ⟨by simp [applyOp, hpc], by simp [applyOp, hpc]⟩
        · refine iff_of_false ?_ ?_
          · intro h
            have h2 : c.lock = some u := h
            rw [hlockt] at h2
            exact hu (Option.some.inj h2).symm
          · intro hiu
            simp only [applyOp, if_neg hu] at hiu
            have hx := (hInv.lockC u).mpr hiu
            rw [hlockt] at hx
            exact hu (Option.some.inj hx).symm
      · intro u r' hl hr hpcu
        have hl2 : c.lock = some u := hl
        rw [hlockt] at hl2
        have hut : t = u := Option.some.inj hl2
        subst hut
        rw [hrole] at hr
        exact Role.noConfusion hr
      · intro u r' hl hr hpcu
        have hl2 : c.lock = some u := hl
        rw [hlockt] at hl2
        have hut : t = u := Option.some.inj hl2
        subst hut
        rw [hrole] at hr
        exact Role.noConfusion hr
      · intro u r' hl hr hpcu
        have hl2 : c.lock = some u := hl
        rw [hlockt] at hl2
        have hut : t = u := Option.some.inj hl2
        subst hut
        rw [hrole] at hr
        exact Role.noConfusion hr
      · intro u r' hl hr hpcu
        have hl2 : c.lock = some u := hl
        rw [hlockt] at hl2
        have hut : t = u := Option.some.inj hl2
        subst hut
        rw [hrole] at hr
        exact Role.noConfusion hr
      · intro u r' hl hr hpcu
        have hl2 : c.lock = some u := hl
        rw [hlockt] at hl2
        have hut : t = u := Option.some.inj hl2
        subst hut
        rw [hrole] at hr
        exact Role.noConfusion hr
      · intro _
        have hmw : noMidWrite role c := by
          intro w rw2 hlw hrw
          rw [hlockt] at hlw
          have hwt : t = w := Option.some.inj hlw
          subst hwt
          rw [hrole] at hrw
          exact Role.noConfusion hrw
        rcases hInv.cons hmw with hL | ⟨w, rw2, hw, h13, hst⟩
        · exact Or.inl hL
        · refine Or.inr ⟨w, rw2, hw, ?_, hst⟩
          have hwt : w ≠ t := by
            intro he
            subst he
            rw [hrole] at hw
            exact Role.noConfusion hw
          simpa [applyOp, hwt] using h13
      · intro u hu hpcu
        by_cases hu2 : u = t
        · subst hu2
          simp [applyOp, hpc] at hpcu
        · simp only [applyOp, if_neg hu2] at hpcu ⊢
          exact hInv.robs0 u hu hpcu
      · intro u hu hpcu
        by_cases hu2 : u = t
        · subst hu2
          simp [applyOp, hInv.robs0 u hu (by omega)]
        · simp only [applyOp, if_neg hu2] at hpcu ⊢
          exact hInv.robs2 u hu hpcu
      · intro u hu hpcu
        by_cases hu2 : u = t
        · subst hu2
          simp [applyOp, hpc] at hpcu
        · simp only [applyOp, if_neg hu2] at hpcu ⊢
          exact hInv.robs3 u hu hpcu
      · intro u hu hpcu
        by_cases hu2 : u = t
        · subst hu2
          simp [applyOp, hpc] at hpcu
        · simp only [applyOp, if_neg hu2] at hpcu ⊢
          exact hInv.robs4 u hu hpcu
      · intro u hu hpcu
        by_cases hu2 : u = t
        · subst hu2
          simp [applyOp, hpc] at hpcu
        · simp only [applyOp, if_neg hu2] at hpcu ⊢
          exact hInv.robs5 u hu hpcu
      · intro u hu hpcu
        by_cases hu2 : u = t
        · subst hu2
          simp [applyOp, hpc] at hpcu
        · simp only [applyOp, if_neg hu2] at hpcu ⊢
          rcases hInv.robs6 u hu hpcu with hL | ⟨w, rw2, hw, h13, ho⟩
          · exact Or.inl hL
          · refine Or.inr ⟨w, rw2, hw, ?_, ho⟩
            have hwt : w ≠ t := by
              intro he
              subst he
              rw [hrole] at hw
              exact Role.noConfusion hw
            simpa [applyOp, hwt] using h13
    case _ =>
      -- reader pc 2: read humidity
      have hlockt : c.lock = some t := by
        rw [hInv.lockC t, hrole]
        exact ⟨by omega, by omega⟩
      refine ⟨?_, ?_, hInv.frame, ?_, ?_, ?_, ?_, ?_, ?_, ?_, ?_, ?_, ?_, ?_, ?_⟩
      · intro u
        by_cases hu : u = t
        · subst hu
          simp [applyOp, hrole, progOf, readerProg]
          omega
        · simpa [applyOp, hu] using hInv.pcB u
      · intro u
        by_cases hu : u = t
        · subst hu
          refine iff_of_true hlockt ?_
          rw [hrole]
          exact ⟨by simp [applyOp, hpc], by simp [applyOp, hpc]⟩
        · refine iff_of_false ?_ ?_
          · intro h
            have h2 : c.lock = some u := h
            rw [hlockt] at h2
            exact hu (Option.some.inj h2).symm
          · intro hiu
            simp only [applyOp, if_neg hu] at hiu
            have hx := (hInv.lockC u).mpr hiu
            rw [hlockt] at hx
            exact hu (Option.some.inj hx).symm
      · intro u r' hl hr hpcu
        have hl2 : c.lock = some u := hl
        rw [hlockt] at hl2
        have hut : t = u := Option.some.inj hl2
        subst hut
        rw [hrole] at hr
        exact Role.noConfusion hr
      · intro u r' hl hr hpcu
        have hl2 : c.lock = some u := hl
        rw [hlockt] at hl2
        have hut : t = u := Option.some.inj hl2
        subst hut
        rw [hrole] at hr
        exact Role.noConfusion hr
      · intro u r' hl hr hpcu
        have hl2 : c.lock = some u := hl
        rw [hlockt] at hl2
        have hut : t = u := Option.some.inj hl2
        subst hut
        rw [hrole] at hr
        exact Role.noConfusion hr
      · intro u r' hl hr hpcu
        have hl2 : c.lock = some u := hl
        rw [hlockt] at hl2
        have hut : t = u := Option.some.inj hl2
        subst hut
        rw [hrole] at hr
        exact Role.noConfusion hr
      · intro u r' hl hr hpcu
        have hl2 : c.lock = some u := hl
        rw [hlockt] at hl2
        have hut : t = u := Option.some.inj hl2
        subst hut
        rw [hrole] at hr
        exact Role.noConfusion hr
      · intro _
        have hmw : noMidWrite role c := by
          intro w rw2 hlw hrw
          rw [hlockt] at hlw
          have hwt : t = w := Option.some.inj hlw
          subst hwt
          rw [hrole] at hrw
          exact Role.noConfusion hrw
        rcases hInv.cons hmw with hL | ⟨w, rw2, hw, h13, hst⟩
        · exact Or.inl hL
        · refine Or.inr ⟨w, rw2, hw, ?_, hst⟩
          have hwt : w ≠ t := by
            intro he
            subst he
            rw [hrole] at hw
            exact Role.noConfusion hw
          simpa [applyOp, hwt] using h13
      · intro u hu hpcu
        by_cases hu2 : u = t
        · subst hu2
          simp [applyOp, hpc] at hpcu
        · simp only [applyOp, if_neg hu2] at hpcu ⊢
          exact hInv.robs0 u hu hpcu
      · intro u hu hpcu
        by_cases hu2 : u = t
        · subst hu2
          simp [applyOp, hpc] at hpcu
        · simp only [applyOp, if_neg hu2] at hpcu ⊢
          exact hInv.robs2 u hu hpcu
      · intro u hu hpcu
        by_cases hu2 : u = t
        · subst hu2
          simp [applyOp, List.append_assoc, hInv.robs2 u hu (by omega)]
        · simp only [applyOp, if_neg hu2] at hpcu ⊢
          exact hInv.robs3 u hu hpcu
      · intro u hu hpcu
        by_cases hu2 : u = t
        · subst hu2
          simp [applyOp, hpc] at hpcu
        · simp only [applyOp, if_neg hu2] at hpcu ⊢
          exact hInv.robs4 u hu hpcu
      · intro u hu hpcu
        by_cases hu2 : u = t
        · subst hu2
          simp [applyOp, hpc] at hpcu
        · simp only [applyOp, if_neg hu2] at hpcu ⊢
          exact hInv.robs5 u hu hpcu
      · intro u hu hpcu
        by_cases hu2 : u = t
        · subst hu2
          simp [applyOp, hpc] at hpcu
        · simp only [applyOp, if_neg hu2] at hpcu ⊢
          rcases hInv.robs6 u hu hpcu with hL | ⟨w, rw2, hw, h13, ho⟩
          · exact Or.inl hL
          · refine Or.inr ⟨w, rw2, hw, ?_, ho⟩
            have hwt : w ≠ t := by
              intro he
              subst he
              rw [hrole] at hw
              exact Role.noConfusion hw
            simpa [applyOp, hwt] using h13
    case _ =>
      -- reader pc 3: read light
      have hlockt : c.lock = some t := by
        rw [hInv.lockC t, hrole]
        exact ⟨by omega, by omega⟩
      refine ⟨?_, ?_, hInv.frame, ?_, ?_, ?_, ?_, ?_, ?_, ?_, ?_, ?_, ?_, ?_, ?_⟩
      · intro u
        by_cases hu : u = t
        · subst hu
          simp [applyOp, hrole, progOf, readerProg]
          omega
        · simpa [applyOp, hu] using hInv.pcB u
      · intro u
        by_cases hu : u = t
        · subst hu
          refine iff_of_true hlockt ?_
          rw [hrole]
          exact ⟨by simp [applyOp, hpc], by simp [applyOp, hpc]⟩
        · refine iff_of_false ?_ ?_
          · intro h
            have h2 : c.lock = some u := h
            rw [hlockt] at h2
            exact hu (Option.some.inj h2).symm
          · intro hiu
            simp only [applyOp, if_neg hu] at hiu
            have hx := (hInv.lockC u).mpr hiu
            rw [hlockt] at hx
            exact hu (Option.some.inj hx).symm
      · intro u r' hl hr hpcu
        have hl2 : c.lock = some u := hl
        rw [hlockt] at hl2
        have hut : t = u := Option.some.inj hl2
        subst hut
        rw [hrole] at hr
        exact Role.noConfusion hr
      · intro u r' hl hr hpcu
        have hl2 : c.lock = some u := hl
        rw [hlockt] at hl2
        have hut : t = u := Option.some.inj hl2
        subst hut
        rw [hrole] at hr
        exact Role.noConfusion hr
      · intro u r' hl hr hpcu
        have hl2 : c.lock = some u := hl
        rw [hlockt] at hl2
        have hut : t = u := Option.some.inj hl2
        subst hut
        rw [hrole] at hr
        exact Role.noConfusion hr
      · intro u r' hl hr hpcu
        have hl2 : c.lock = some u := hl
        rw [hlockt] at hl2
        have hut : t = u := Option.some.inj hl2
        subst hut
        rw [hrole] at hr
        exact Role.noConfusion hr
      · intro u r' hl hr hpcu
        have hl2 : c.lock = some u := hl
        rw [hlockt] at hl2
        have hut : t = u := Option.some.inj hl2
        subst hut
        rw [hrole] at hr
        exact Role.noConfusion hr
      · intro _
        have hmw : noMidWrite role c := by
          intro w rw2 hlw hrw
          rw [hlockt] at hlw
          have hwt : t = w := Option.some.inj hlw
          subst hwt
          rw [hrole] at hrw
          exact Role.noConfusion hrw
        rcases hInv.cons hmw with hL | ⟨w, rw2, hw, h13, hst⟩
        · exact Or.inl hL
        · refine Or.inr ⟨w, rw2, hw, ?_, hst⟩
          have hwt : w ≠ t := by
            intro he
            subst he
            rw [hrole] at hw
            exact Role.noConfusion hw
          simpa [applyOp, hwt] using h13
      · intro u hu hpcu
        by_cases hu2 : u = t
        · subst hu2
          simp [applyOp, hpc] at hpcu
        · simp only [applyOp, if_neg hu2] at hpcu ⊢
          exact hInv.robs0 u hu hpcu
      · intro u hu hpcu
        by_cases hu2 : u = t
        · subst hu2
          simp [applyOp, hpc] at hpcu
        · simp only [applyOp, if_neg hu2] at hpcu ⊢
          exact hInv.robs2 u hu hpcu
      · intro u hu hpcu
        by_cases hu2 : u = t
        · subst hu2
          simp [applyOp, hpc] at hpcu
        · simp only [applyOp, if_neg hu2] at hpcu ⊢
          exact hInv.robs3 u hu hpcu
      · intro u hu hpcu
        by_cases hu2 : u = t
        · subst hu2
          simp [applyOp, List.append_assoc, hInv.robs3 u hu (by omega)]
        · simp only [applyOp, if_neg hu2] at hpcu ⊢
          exact hInv.robs4 u hu hpcu
      · intro u hu hpcu
        by_cases hu2 : u = t
        · subst hu2
          simp [applyOp, hpc] at hpcu
        · simp only [applyOp, if_neg hu2] at hpcu ⊢
          exact hInv.robs5 u hu hpcu
      · intro u hu hpcu
        by_cases hu2 : u = t
        · subst hu2
          simp [applyOp, hpc] at hpcu
        · simp only [applyOp, if_neg hu2] at hpcu ⊢
          rcases hInv.robs6 u hu hpcu with hL | ⟨w, rw2, hw, h13, ho⟩
          · exact Or.inl hL
          · refine Or.inr ⟨w, rw2, hw, ?_, ho⟩
            have hwt : w ≠ t := by
              intro he
              subst he
              rw [hrole] at hw
              exact Role.noConfusion hw
            simpa [applyOp, hwt] using h13
    case _ =>
      -- reader pc 4: read co2
      have hlockt : c.lock = some t := by
        rw [hInv.lockC t, hrole]
        exact ⟨by omega, by omega⟩
      refine ⟨?_, ?_, hInv.frame, ?_, ?_, ?_, ?_, ?_, ?_, ?_, ?_, ?_, ?_, ?_, ?_⟩
      · intro u
        by_cases hu : u = t
        · subst hu
          simp [applyOp, hrole, progOf, readerProg]
          omega
        · simpa [applyOp, hu] using hInv.pcB u
      · intro u
        by_cases hu : u = t
        · subst hu
          refine iff_of_true hlockt ?_
          rw [hrole]
          exact ⟨by simp [applyOp, hpc], by simp [applyOp, hpc]⟩
        · refine iff_of_false ?_ ?_
          · intro h
            have h2 : c.lock = some u := h
            rw [hlockt] at h2
            exact hu (Option.some.inj h2).symm
          · intro hiu
            simp only [applyOp, if_neg hu] at hiu
            have hx := (hInv.lockC u).mpr hiu
            rw [hlockt] at hx
            exact hu (Option.some.inj hx).symm
      · intro u r' hl hr hpcu
        have hl2 : c.lock = some u := hl
        rw [hlockt] at hl2
        have hut : t = u := Option.some.inj hl2
        subst hut
        rw [hrole] at hr
        exact Role.noConfusion hr
      · intro u r' hl hr hpcu
        have hl2 : c.lock = some u := hl
        rw [hlockt] at hl2
        have hut : t = u := Option.some.inj hl2
        subst hut
        rw [hrole] at hr
        exact Role.noConfusion hr
      · intro u r' hl hr hpcu
        have hl2 : c.lock = some u := hl
        rw [hlockt] at hl2
        have hut : t = u := Option.some.inj hl2
        subst hut
        rw [hrole] at hr
        exact Role.noConfusion hr
      · intro u r' hl hr hpcu
        have hl2 : c.lock = some u := hl
        rw [hlockt] at hl2
        have hut : t = u := Option.some.inj hl2
        subst hut
        rw [hrole] at hr
        exact Role.noConfusion hr
      · intro u r' hl hr hpcu
        have hl2 : c.lock = some u := hl
        rw [hlockt] at hl2
        have hut : t = u := Option.some.inj hl2
        subst hut
        rw [hrole] at hr
        exact Role.noConfusion hr
      · intro _
        have hmw : noMidWrite role c := by
          intro w rw2 hlw hrw
          rw [hlockt] at hlw
          have hwt : t = w := Option.some.inj hlw
          subst hwt
          rw [hrole] at hrw
          exact Role.noConfusion hrw
        rcases hInv.cons hmw with hL | ⟨w, rw2, hw, h13, hst⟩
        · exact Or.inl hL
        · refine Or.inr ⟨w, rw2, hw, ?_, hst⟩
          have hwt : w ≠ t := by
            intro he
            subst he
            rw [hrole] at hw
            exact Role.noConfusion hw
          simpa [applyOp, hwt] using h13
      · intro u hu hpcu
        by_cases hu2 : u = t
        · subst hu2
          simp [applyOp, hpc] at hpcu
        · simp only [applyOp, if_neg hu2] at hpcu ⊢
          exact hInv.robs0 u hu hpcu
      · intro u hu hpcu
        by_cases hu2 : u = t
        · subst hu2
          simp [applyOp, hpc] at hpcu
        · simp only [applyOp, if_neg hu2] at hpcu ⊢
          exact hInv.robs2 u hu hpcu
      · intro u hu hpcu
        by_cases hu2 : u = t
        · subst hu2
          simp [applyOp, hpc] at hpcu
        · simp only [applyOp, if_neg hu2] at hpcu ⊢
          exact hInv.robs3 u hu hpcu
      · intro u hu hpcu
        by_cases hu2 : u = t
        · subst hu2
          simp [applyOp, hpc] at hpcu
        · simp only [applyOp, if_neg hu2] at hpcu ⊢
          exact hInv.robs4 u hu hpcu
      · intro u hu hpcu
        by_cases hu2 : u = t
        · subst hu2
          simp [applyOp, snapOf, hInv.robs4 u hu (by omega)]
        · simp only [applyOp, if_neg hu2] at hpcu ⊢
          exact hInv.robs5 u hu hpcu
      · intro u hu hpcu
        by_cases hu2 : u = t
        · subst hu2
          simp [applyOp, hpc] at hpcu
        · simp only [applyOp, if_neg hu2] at hpcu ⊢
          rcases hInv.robs6 u hu hpcu with hL | ⟨w, rw2, hw, h13, ho⟩
          · exact Or.inl hL
          · refine Or.inr ⟨w, rw2, hw, ?_, ho⟩
            have hwt : w ≠ t := by
              intro he
              subst he
              rw [hrole] at hw
              exact Role.noConfusion hw
            simpa [applyOp, hwt] using h13
    case _ =>
      -- reader pc 5: release, the observed snapshot is consistent
      have hlockt : c.lock = some t := by
        rw [hInv.lockC t, hrole]
        exact ⟨by omega, by omega⟩
      have hmw : noMidWrite role c := by
        intro w rw2 hlw hrw
        rw [hlockt] at hlw
        have hwt : t = w := Option.some.inj hlw
        subst hwt
        rw [hrole] at hrw
        exact Role.noConfusion hrw
      have hstore := hInv.cons hmw
      refine ⟨?_, ?_, hInv.frame, ?_, ?_, ?_, ?_, ?_, ?_, ?_, ?_, ?_, ?_, ?_, ?_⟩
      · intro u
        by_cases hu : u = t
        · subst hu
          simp [applyOp, hrole, progOf, readerProg]
          omega
        · simpa [applyOp, hu] using hInv.pcB u
      · intro u
        refine iff_of_false (fun h => Option.noConfusion h) ?_
        intro hiu
        by_cases hu : u = t
        · subst hu
          rw [hrole] at hiu
          simp [applyOp, inCrit] at hiu
          omega
        · simp only [applyOp, if_neg hu] at hiu
          have hx := (hInv.lockC u).mpr hiu
          rw [hlockt] at hx
          exact hu (Option.some.inj hx).symm
      · intro u r' hl hr hpcu
        exact absurd hl (by simp [applyOp])
      · intro u r' hl hr hpcu
        exact absurd hl (by simp [applyOp])
      · intro u r' hl hr hpcu
        exact absurd hl (by simp [applyOp])
      · intro u r' hl hr hpcu
        exact absurd hl (by simp [applyOp])
      · intro u r' hl hr hpcu
        exact absurd hl (by simp [applyOp])
      · intro _
        rcases hstore with hL | ⟨w, rw2, hw, h13, hst⟩
        · exact Or.inl hL
        · refine Or.inr ⟨w, rw2, hw, ?_, hst⟩
          have hwt : w ≠ t := by
            intro he
            subst he
            rw [hrole] at hw
            exact Role.noConfusion hw
          simpa [applyOp, hwt] using h13
      · intro u hu hpcu
        by_cases hu2 : u = t
        · subst hu2
          simp [applyOp, hpc] at hpcu
        · simp only [applyOp, if_neg hu2] at hpcu
          exact hInv.robs0 u hu hpcu
      · intro u hu hpcu
        by_cases hu2 : u = t
        · subst hu2
          simp [applyOp, hpc] at hpcu
        · simp only [applyOp, if_neg hu2] at hpcu
          exact hInv.robs2 u hu hpcu
      · intro u hu hpcu
        by_cases hu2 : u = t
        · subst hu2
          simp [applyOp, hpc] at hpcu
        · simp only [applyOp, if_neg hu2] at hpcu
          exact hInv.robs3 u hu hpcu
      · intro u hu hpcu
        by_cases hu2 : u = t
        · subst hu2
          simp [applyOp, hpc] at hpcu
        · simp only [applyOp, if_neg hu2] at hpcu
          exact hInv.robs4 u hu hpcu
      · intro u hu hpcu
        by_cases hu2 : u = t
        · subst hu2
          simp [applyOp, hpc] at hpcu
        · simp only [applyOp, if_neg hu2] at hpcu
          exact hInv.robs5 u hu hpcu
      · intro u hu hpcu
        by_cases hu2 : u = t
        · subst hu2
          have hobs : c.obs u = snapOf c.store := hInv.robs5 u hu hpc
          rcases hstore with hL | ⟨w, rw2, hw, h13, hst⟩
          · refine Or.inl ?_
            show c.obs u = snapOf init
            rw [hobs]
            simp [snapOf, hL]
          · refine Or.inr ⟨w, rw2, hw, ?_, ?_⟩
            · have hwt : w ≠ u := by
                intro he
                subst he
                rw [hrole] at hw
                exact Role.noConfusion hw
              simpa [applyOp, hwt] using h13
            · show c.obs u = snapOf (writtenStore rw2 init)
              rw [hobs]
              simp [snapOf, hst]
        · simp only [applyOp, if_neg hu2] at hpcu
          rcases hInv.robs6 u hu hpcu with hL | ⟨w, rw2, hw, h13, ho⟩
          · exact Or.inl hL
          · refine Or.inr ⟨w, rw2, hw, ?_, ho⟩
            have hwt : w ≠ t := by
              intro he
              subst he
              rw [hrole] at hw
              exact Role.noConfusion hw
            simpa [applyOp, hwt] using h13

/-- The start state satisfies the invariant. -/
theorem sysInv_init (role : Tid → Role) (init : FieldName → ℚ) :
    SysInv role init (initConf role init) := by
  refine ⟨?_, ?_, fun g _ => rfl, ?_, ?_, ?_, ?_, ?_, ?_, ?_, ?_, ?_, ?_, ?_, ?_⟩
  · intro t
    exact Nat.zero_le _
  · intro t
    refine iff_of_false (fun h => Option.noConfusion h) ?_
    intro hiu
    rcases hr : role t with r | _ <;> rw [hr] at hiu <;>
      rcases hiu with ⟨h1, h2⟩ <;> simp [initConf] at h1
  · intro t r hl
    exact absurd hl (by simp [initConf])
  · intro t r hl
    exact absurd hl (by simp [initConf])
  · intro t r hl
    exact absurd hl (by simp [initConf])
  · intro t r hl
    exact absurd hl (by simp [initConf])
  · intro t r hl
    exact absurd hl (by simp [initConf])
  · intro _
    exact Or.inl (fun g => rfl)
  · intro t _ _
    rfl
  · intro t _ h
    exact absurd h (by simp [initConf])
  · intro t _ h
    exact absurd h (by simp [initConf])
  · intro t _ h
    exact absurd h (by simp [initConf])
  · intro t _ h
    exact absurd h (by simp [initConf])
  · intro t _ h
    exact absurd h (by simp [initConf])

/-- Every reachable configuration satisfies the invariant. -/
theorem sysInv_reach {role : Tid → Role} {init : FieldName → ℚ} {c : Conf}
    (h : Reach role init c) : SysInv role init c := by
  induction h with
  | refl => exact sysInv_init role init
  | tail _ hbc ih =>
      rcases hbc with ⟨t, hstep⟩
      exact sysInv_step ih hstep

/-! ## C1 — atomic snapshots -/

/-- C1.  In any interleaving of request-path updates and callback reads,
a completed read observed all four schema metrics from a single source: the
startup defaults, or exactly one completed update, as a whole — never a mix
of two updates and never a partial update.  (The live reading always has a
value for every schema metric by construction: the store is total and every
update overwrites all of them.) -/
theorem read_snapshot_atomic (role : Tid → Role) (init : FieldName → ℚ) (c : Conf)
    (h : Reach role init c) (t : Tid) (hrole : role t = Role.reader)
    (hpc : c.pc t = 6) : consistentSnap role init c (c.obs t) :=
  (sysInv_reach h).robs6 t hrole hpc

/-- Deterministic scheduler used by the concrete witnesses: run the named
thread's next micro-op if it is enabled, else do nothing. -/
def stepFn (role : Tid → Role) (c : Conf) (t : Tid) : Conf :=
  match (progOf (role t)).get? (c.pc t) with
  | some op => if enabledB c t op then applyOp c t op else c
  | none => c

/-- Run a list of scheduling choices. -/
def runSched (role : Tid → Role) (c : Conf) : List Tid → Conf
  | [] => c
  | t :: ts => runSched role (stepFn role c t) ts

/-- A `stepFn` move stays within reachability. -/
theorem stepFn_reach {role : Tid → Role} {init : FieldName → ℚ} {c : Conf}
    (h : Reach role init c) (t : Tid) : Reach role init (stepFn role c t) := by
  unfold stepFn
  rcases hop : (progOf (role t)).get? (c.pc t) with _ | op
  · exact h
  · show Reach role init (if enabledB c t op = true then applyOp c t op else c)
    by_cases hen : enabledB c t op = true
    · rw [if_pos hen]
      exact h.tail ⟨t, Step.mk op hop hen⟩
    · rw [if_neg hen]
      exact h

/-- Any schedule stays within reachability. -/
theorem runSched_reach (role : Tid → Role) (init : FieldName → ℚ)
    (sched : List Tid) (c : Conf) (h : Reach role init c) :
    Reach role init (runSched role c sched) := by
  induction sched generalizing c with
  | nil => exact h
  | cons t ts ih => exact ih _ (stepFn_reach h t)

/-- A concrete update for the witnesses. -/
def rW : UpdateVals :=
  { temperature := mkRat 51 2, humidity := 60, light := 700, co2 := 500, timestamp := 1 }

/-- One writer (thread 0) and readers elsewhere. -/
def roleWR : Tid → Role := fun t => if t = 0 then Role.writer rW else Role.reader

/-- All threads are readers. -/
def roleRR : Tid → Role := fun _ => Role.reader

/-- The startup defaults of `latest_data` as a store. -/
def initStore : FieldName → ℚ := fun g =>
  if g = "temperature" then mkRat 49 2
  else if g = "humidity" then 65
  else if g = "light" then 750
  else if g = "co2" then 450
  else 0

/-- Writer 0 runs to completion, then reader 1 runs to completion. -/
def schedWR : List Tid := [0, 0, 0, 0, 0, 0, 0, 0, 0, 0, 0, 0, 0, 1, 1, 1, 1, 1, 1]

/-- The configuration after `schedWR`. -/
def confWR : Conf := runSched roleWR (initConf roleWR initStore) schedWR

/-- Witness for C1: after a full update and a full read, the reader's
observation is the complete image of that one update. -/
theorem read_snapshot_atomic_witness :
    Reach roleWR initStore confWR ∧ roleWR 1 = Role.reader ∧ confWR.pc 1 = 6 ∧
    confWR.obs 1 = snapOf (writtenStore rW initStore) ∧
    consistentSnap roleWR initStore confWR (confWR.obs 1) := by
  have hreach : Reach roleWR initStore confWR :=
    runSched_reach roleWR initStore schedWR _ Relation.ReflTransGen.refl
  exact ⟨hreach, rfl, by decide, by decide,
    read_snapshot_atomic roleWR initStore confWR hreach 1 rfl (by decide)⟩

/-! ## C7 — the lock is exclusive: readers block readers -/

/-- The configuration after reader 0 acquires `data_lock`. -/
def confRR : Conf := runSched roleRR (initConf roleRR initStore) [0]

/-- C7 counterexample: `data_lock` is a single exclusive `threading.Lock`, so
while reader 0 is inside its `with data_lock` block (a Read in progress),
reader 1's next operation is `acquire` and it is not enabled — a Read does
block on the in-progress Read of another caller. -/
theorem read_blocks_on_reader :
    Reach roleRR initStore confRR ∧
    roleRR 0 = Role.reader ∧ roleRR 1 = Role.reader ∧
    confRR.lock = some 0 ∧
    inCrit (roleRR 0) (confRR.pc 0) ∧
    (progOf (roleRR 1)).get? (confRR.pc 1) = some MicroOp.acquire ∧
    enabledB confRR 1 MicroOp.acquire = false ∧
    ¬ ∃ c', Step roleRR 1 confRR c' := by
  refine ⟨runSched_reach roleRR initStore [0] _ Relation.ReflTransGen.refl,
    rfl, rfl, by decide, ⟨by decide, by decide⟩, by decide, by decide, ?_⟩
  rintro ⟨c', op, hop, hen⟩
  have hpc1 : confRR.pc 1 = 0 := by decide
  rw [hpc1] at hop
  simp only [progOf, readerProg, List.get?, Option.some.injEq] at hop
  subst hop
  exact absurd hen (by decide)

/-- C7 amended: acquisition of the store lock is blocked by ANY current
holder — reader or writer alike — so readers do not proceed concurrently
with each other; and at most one thread is ever inside the critical section. -/
theorem read_mutual_exclusion :
    (∀ (role : Tid → Role) (c : Conf) (t u : Tid), c.lock = some u →
      (progOf (role t)).get? (c.pc t) = some MicroOp.acquire →
      ∀ c', ¬ Step role t c c') ∧
    (∀ (role : Tid → Role) (init : FieldName → ℚ) (c : Conf), Reach role init c →
      ∀ t u, inCrit (role t) (c.pc t) → inCrit (role u) (c.pc u) → t = u) := by
  constructor
  · intro role c t u hl hop c' hs
    rcases hs with ⟨op, hop2, hen⟩
    rw [hop2] at hop
    injection hop with hop
    subst hop
    simp [enabledB, hl] at hen
  · intro role init c h t u ht hu
    have hInv := sysInv_reach h
    have h1 := (hInv.lockC t).mpr ht
    have h2 := (hInv.lockC u).mpr hu
    rw [h1] at h2
    exact Option.some.inj h2

/-- Witness for the amended C7 at the concrete blocked configuration. -/
theorem read_mutual_exclusion_witness :
    confRR.lock = some 0 ∧
    (progOf (roleRR 1)).get? (confRR.pc 1) = some MicroOp.acquire ∧
    (∀ c', ¬ Step roleRR 1 confRR c') ∧
    Reach roleRR initStore confRR ∧
    inCrit (roleRR 0) (confRR.pc 0) ∧ 0 = 0 := by
  have hreach : Reach roleRR initStore confRR :=
    runSched_reach roleRR initStore [0] _ Relation.ReflTransGen.refl
  refine ⟨by decide, by decide,
    read_mutual_exclusion.1 roleRR confRR 1 0 (by decide) (by decide),
    hreach, ⟨by decide, by decide⟩,
    read_mutual_exclusion.2 roleRR initStore confRR hreach 0 0
      ⟨by decide, by decide⟩ ⟨by decide, by decide⟩⟩

/-! ## C8 — what happens while the lock is held -/

/-- The configuration after writer 0 decodes and acquires. -/
def confW2 : Conf := runSched roleWR (initConf roleWR initStore) [0, 0]

/-- C8 counterexample: the dict display at lines 43–49 (and 33–41 of the vs
variant) is evaluated inside the `with data_lock` block, so the very next
operation of the lock-holding writer is a `float`/`int` type conversion:
conversion of payload values does happen while the lock is held. -/
theorem conversion_under_lock :
    Reach roleWR initStore confW2 ∧
    confW2.lock = some 0 ∧
    roleWR 0 = Role.writer rW ∧
    inCrit (roleWR 0) (confW2.pc 0) ∧
    (progOf (roleWR 0)).get? (confW2.pc 0) = some MicroOp.convertOp := by
  exact ⟨runSched_reach roleWR initStore [0, 0] _ Relation.ReflTransGen.refl,
    by decide, rfl, ⟨by decide, by decide⟩, by decide⟩

/-- C8 amended: raw-payload decoding (`request.json` / `json.loads`) is never
performed while the lock is held — it strictly precedes `acquire` on both
ingestion paths — but the per-field type conversions (and the `datetime.now()`
call) do happen inside the locked region, between `acquire` and the field
writes, on both paths. -/
theorem lock_held_scope :
    (∀ (role : Tid → Role) (init : FieldName → ℚ) (c : Conf), Reach role init c →
      ∀ t, c.lock = some t →
        (progOf (role t)).get? (c.pc t) ≠ some MicroOp.decodeOp) ∧
    (∀ r : UpdateVals,
      (writerProg r).get? 0 = some MicroOp.decodeOp ∧
      (writerProg r).get? 1 = some MicroOp.acquire ∧
      (writerProg r).get? 2 = some MicroOp.convertOp ∧
      (writerProg r).get? 6 = some MicroOp.nowOp ∧
      (writerProg r).get? 12 = some MicroOp.releaseOp) ∧
    (∀ r : UpdateValsVS,
      (onMessageProg r).get? 0 = some MicroOp.decodeOp ∧
      (onMessageProg r).get? 1 = some MicroOp.acquire ∧
      (onMessageProg r).get? 2 = some MicroOp.convertOp ∧
      (onMessageProg r).get? 8 = some MicroOp.nowOp ∧
      (onMessageProg r).get? 16 = some MicroOp.releaseOp) := by
  refine ⟨?_, fun r => ⟨rfl, rfl, rfl, rfl, rfl⟩, fun r => ⟨rfl, rfl, rfl, rfl, rfl⟩⟩
  intro role init c h t hl hop
  have hInv := sysInv_reach h
  have hic := (hInv.lockC t).mp hl
  rcases hr : role t with r | _
  · rw [hr] at hic
    rcases hic with ⟨h1, h2⟩
    rw [hr] at hop
    have hd : c.pc t = 2 ∨ c.pc t = 3 ∨ c.pc t = 4 ∨ c.pc t = 5 ∨ c.pc t = 6 ∨
        c.pc t = 7 ∨ c.pc t = 8 ∨ c.pc t = 9 ∨ c.pc t = 10 ∨ c.pc t = 11 ∨
        c.pc t = 12 := by omega
    rcases hd with hpc|hpc|hpc|hpc|hpc|hpc|hpc|hpc|hpc|hpc|hpc <;>
      rw [hpc] at hop <;> simp [progOf, writerProg] at hop
  · rw [hr] at hic
    rcases hic with ⟨h1, h2⟩
    rw [hr] at hop
    have hd : c.pc t = 1 ∨ c.pc t = 2 ∨ c.pc t = 3 ∨ c.pc t = 4 ∨ c.pc t = 5 := by
      omega
    rcases hd with hpc|hpc|hpc|hpc|hpc <;>
      rw [hpc] at hop <;> simp [progOf, readerProg] at hop

/-- Witness for the amended C8 at the lock-holding writer configuration. -/
theorem lock_held_scope_witness :
    Reach roleWR initStore confW2 ∧ confW2.lock = some 0 ∧
    (progOf (roleWR 0)).get? (confW2.pc 0) ≠ some MicroOp.decodeOp := by
  have hreach : Reach roleWR initStore confW2 :=
    runSched_reach roleWR initStore [0, 0] _ Relation.ReflTransGen.refl
  exact ⟨hreach, by decide,
    lock_held_scope.1 roleWR initStore confW2 hreach 0 (by decide)⟩

/-! ## C9 — reading and evaluating has no side effects and is deterministic -/

/-- C9.  The polling consumer is pure with respect to the store: in a system
of readers only, the store never changes from its initial contents, every
completed read observes exactly the same snapshot, and hence two runs of the
read-plus-evaluate callback over the same store produce identical
observations (the alert list is a function of the observation, computed by
`alertsOf` after the lock is released). -/
theorem evaluate_pure (role : Tid → Role) (hAll : ∀ t, role t = Role.reader)
    (init : FieldName → ℚ) (c : Conf) (h : Reach role init c) :
    (∀ g, c.store g = init g) ∧
    (∀ t, c.pc t = 6 → c.obs t = snapOf init) ∧
    (∀ t u, c.pc t = 6 → c.pc u = 6 → c.obs t = c.obs u) := by
  have hInv := sysInv_reach h
  have hmw : noMidWrite role c := by
    intro w rw2 hlw hrw
    rw [hAll w] at hrw
    exact Role.noConfusion hrw
  have hst : ∀ g, c.store g = init g := by
    rcases hInv.cons hmw with hL | ⟨w, rw2, hw, _, _⟩
    · exact hL
    · rw [hAll w] at hw
      exact Role.noConfusion hw
  have hobs : ∀ t, c.pc t = 6 → c.obs t = snapOf init := by
    intro t hpc
    rcases hInv.robs6 t (hAll t) hpc with hL | ⟨w, rw2, hw, _, _⟩
    · exact hL
    · rw [hAll w] at hw
      exact Role.noConfusion hw
  exact ⟨hst, hobs, fun t u hpt hpu => by rw [hobs t hpt, hobs u hpu]⟩

/-- Two readers run to completion. -/
def confR2 : Conf :=
  runSched roleRR (initConf roleRR initStore) [0, 0, 0, 0, 0, 0, 1, 1, 1, 1, 1, 1]

/-- Witness for C9: two consecutive full reads leave the store untouched and
observe identical snapshots. -/
theorem evaluate_pure_witness :
    Reach roleRR initStore confR2 ∧ confR2.pc 0 = 6 ∧ confR2.pc 1 = 6 ∧
    (∀ g, confR2.store g = initStore g) ∧ confR2.obs 0 = confR2.obs 1 := by
  have hreach : Reach roleRR initStore confR2 :=
    runSched_reach roleRR initStore _ _ Relation.ReflTransGen.refl
  have h := evaluate_pure roleRR (fun t => rfl) initStore confR2 hreach
  exact ⟨hreach, by decide, by decide, h.1, h.2.2 0 1 (by decide) (by decide)⟩
